import Mathlib

/-!
A verification development for the display/formatting module of the repository
(`mcp_use/agents/display.py`) and the example server (`examples/server/fastmcp2_example.py`).

Python values that can appear in this code (JSON-decodable values plus the
inputs the formatter receives) are shallowly embedded as `PyVal`.  Python
floats are modelled as exact decimal numbers `m / 10 ^ e`; the module never
does float arithmetic, it only parses decimal literals and formats them, so
this decimal model matches the observable behaviour on the inputs at issue.

Console output (rich panels, blank separator lines, raw token writes) is
modelled as a list of `ConsoleEvent`s; a Python exception escaping to the
caller is modelled by `Except.error`.
-/

inductive PyVal where
  | none : PyVal
  | bool (b : Bool) : PyVal
  | int (n : Int) : PyVal
  | float (m : Int) (e : Nat) : PyVal
  | str (s : String) : PyVal
  | list (xs : List PyVal) : PyVal
  | dict (kvs : List (String × PyVal)) : PyVal

/-- Python truthiness (`bool(x)`) for the embedded values. -/
def pyTruthy : PyVal → Bool
  | .none => false
  | .bool b => b
  | .int n => decide (n ≠ 0)
  | .float m _ => decide (m ≠ 0)
  | .str s => decide (s ≠ "")
  | .list xs => !xs.isEmpty
  | .dict kvs => !kvs.isEmpty

/-- `x is None` test. -/
def isNone : PyVal → Bool
  | .none => true
  | _ => false

/-- `d.get(key)` on a dict: the value if the key is present, Python `None` otherwise. -/
def dGet : List (String × PyVal) → String → PyVal
  | [], _ => .none
  | (k, v) :: t, key => if k = key then v else dGet t key

/-- `key in d` on a dict. -/
def hasKey (m : List (String × PyVal)) (key : String) : Bool :=
  m.any (fun kv => kv.1 == key)

/-! ### Character utilities and decimal digits -/

def digitChar : Nat → Char
  | 0 => '0'
  | 1 => '1'
  | 2 => '2'
  | 3 => '3'
  | 4 => '4'
  | 5 => '5'
  | 6 => '6'
  | 7 => '7'
  | 8 => '8'
  | _ => '9'

def isDigitC (c : Char) : Bool := '0' ≤ c && c ≤ '9'

def natDigitsAux : Nat → Nat → List Char
  | 0, _ => []
  | fuel + 1, n =>
    if n < 10 then [digitChar n]
    else natDigitsAux fuel (n / 10) ++ [digitChar (n % 10)]

/-- The decimal digits of a natural number, most significant first. -/
def natDigits (n : Nat) : List Char := natDigitsAux (n + 1) n

/-- `str(n)` for a Python int. -/
def intDigits (n : Int) : List Char :=
  (if n < 0 then ['-'] else []) ++ natDigits n.natAbs

def padZeros (k : Nat) (l : List Char) : List Char :=
  List.replicate (k - l.length) '0' ++ l

/-- Digits of the unsigned decimal float `a / 10 ^ e`. -/
def floatBodyL (a : Nat) (e : Nat) : List Char :=
  natDigits (a / 10 ^ e) ++
    '.' :: (if e = 0 then ['0'] else padZeros e (natDigits (a % 10 ^ e)))

/-- `repr` of the decimal float `m / 10 ^ e` (e.g. `0.002`, `5.0`, `-3.25`). -/
def floatDigits (m : Int) (e : Nat) : List Char :=
  (if m < 0 then ['-'] else []) ++ floatBodyL m.natAbs e

/-- JSON whitespace accepted by `json.loads`. -/
def wsChar (c : Char) : Bool := c = ' ' || c = '\t' || c = '\n' || c = '\r'

/-- The characters matched by the regex class `\s` / stripped by `str.strip()`
(the ASCII portion used by this module). -/
def pySChar (c : Char) : Bool :=
  c = ' ' || c = '\t' || c = '\n' || c = '\r' || c.toNat = 11 || c.toNat = 12

def skipWs (l : List Char) : List Char := l.dropWhile wsChar

/-- `str.strip()`. -/
def pyStrip (l : List Char) : List Char :=
  ((l.dropWhile pySChar).reverse.dropWhile pySChar).reverse

/-- `pat in hay` substring test (Python `in` on strings). -/
def containsSub (pat : List Char) : List Char → Bool
  | [] => pat.isEmpty
  | c :: t => pat.isPrefixOf (c :: t) || containsSub pat t

/-- Index of the first occurrence of `pat` as a substring. -/
def findSub (pat : List Char) : List Char → Option Nat
  | [] => if pat.isEmpty then some 0 else Option.none
  | c :: t =>
    if pat.isPrefixOf (c :: t) then some 0
    else (findSub pat t).map (· + 1)

def pyPrintable (c : Char) : Bool := 32 ≤ c.toNat && c.toNat ≠ 127

def hexChar (n : Nat) : Char :=
  if n < 10 then digitChar n
  else if n = 10 then 'a'
  else if n = 11 then 'b'
  else if n = 12 then 'c'
  else if n = 13 then 'd'
  else if n = 14 then 'e'
  else 'f'

def hex2 (n : Nat) : List Char := [hexChar (n / 16 % 16), hexChar (n % 16)]

def hex4 (n : Nat) : List Char :=
  [hexChar (n / 4096 % 16), hexChar (n / 256 % 16), hexChar (n / 16 % 16), hexChar (n % 16)]

def hex8 (n : Nat) : List Char := hex4 (n / 65536) ++ hex4 (n % 65536)

/-! ### Python `repr`/`str` of values -/

/-- One character of a Python string repr, with quote character `q`. -/
def escChar (q : Char) (c : Char) : List Char :=
  if c = '\\' then ['\\', '\\']
  else if c = q then ['\\', q]
  else if c = '\n' then ['\\', 'n']
  else if c = '\r' then ['\\', 'r']
  else if c = '\t' then ['\\', 't']
  else if pyPrintable c then [c]
  else if c.toNat < 256 then '\\' :: 'x' :: hex2 c.toNat
  else if c.toNat < 65536 then '\\' :: 'u' :: hex4 c.toNat
  else '\\' :: 'U' :: hex8 c.toNat

/-- Python picks single quotes unless the string has a `'` and no `"`. -/
def strQuote (l : List Char) : Char :=
  if l.contains '\'' && !(l.contains '"') then '"' else '\''

/-- `repr` of a Python string. -/
def reprStrChars (l : List Char) : List Char :=
  let q := strQuote l
  q :: l.flatMap (escChar q) ++ [q]

mutual

/-- `repr(v)` for an embedded Python value. -/
def pyReprL : PyVal → List Char
  | .none => "None".data
  | .bool true => "True".data
  | .bool false => "False".data
  | .int n => intDigits n
  | .float m e => floatDigits m e
  | .str s => reprStrChars s.data
  | .list xs => '[' :: pyReprItems xs ++ [']']
  | .dict kvs => '\x7b' :: pyReprMembers kvs ++ ['\x7d']

def pyReprItems : List PyVal → List Char
  | [] => []
  | [x] => pyReprL x
  | x :: y :: t => pyReprL x ++ ',' :: ' ' :: pyReprItems (y :: t)

def pyReprMembers : List (String × PyVal) → List Char
  | [] => []
  | [(k, v)] => reprStrChars k.data ++ ':' :: ' ' :: pyReprL v
  | (k, v) :: p :: t =>
    reprStrChars k.data ++ ':' :: ' ' :: pyReprL v ++ ',' :: ' ' :: pyReprMembers (p :: t)

end

/-- `str(v)`: identity on strings, `repr` otherwise (as in `str(content)`). -/
def pyStrTop : PyVal → String
  | .str s => s
  | v => String.mk (pyReprL v)

/-! ### `json.loads` -/

def hexVal (c : Char) : Option Nat :=
  if '0' ≤ c && c ≤ '9' then some (c.toNat - 48)
  else if 'a' ≤ c && c ≤ 'f' then some (c.toNat - 87)
  else if 'A' ≤ c && c ≤ 'F' then some (c.toNat - 55)
  else Option.none

def hex4Val (a b c d : Char) : Option Nat := do
  let x1 ← hexVal a
  let x2 ← hexVal b
  let x3 ← hexVal c
  let x4 ← hexVal d
  pure (x1 * 4096 + x2 * 256 + x3 * 16 + x4)

def consFst (ch : Char) : Option (List Char × List Char) → Option (List Char × List Char)
  | Option.none => Option.none
  | some (l, r) => some (ch :: l, r)

mutual

/-- Parse the body of a JSON string (after the opening quote), returning the
decoded characters and the input after the closing quote. -/
def parseStrBody : List Char → Option (List Char × List Char)
  | [] => Option.none
  | c :: r =>
    if c = '"' then some ([], r)
    else if c = '\\' then parseEsc r
    else if c.toNat < 32 then Option.none
    else consFst c (parseStrBody r)

/-- Handle a backslash escape inside a JSON string. -/
def parseEsc : List Char → Option (List Char × List Char)
  | 'u' :: a :: b :: c :: d :: r =>
    (match hex4Val a b c d with
     | Option.none => Option.none
     | some x =>
       if 55296 ≤ x && x < 56320 then
         match r with
         | '\\' :: 'u' :: a2 :: b2 :: c2 :: d2 :: r2 =>
           (match hex4Val a2 b2 c2 d2 with
            | Option.none => Option.none
            | some y =>
              if 56320 ≤ y && y < 57344 then
                consFst (Char.ofNat ((x - 55296) * 1024 + (y - 56320) + 65536)) (parseStrBody r2)
              else Option.none)
         | _ => Option.none
       else if 56320 ≤ x && x < 57344 then Option.none
       else consFst (Char.ofNat x) (parseStrBody r))
  | e :: r =>
    if e = '"' then consFst '"' (parseStrBody r)
    else if e = '\\' then consFst '\\' (parseStrBody r)
    else if e = '/' then consFst '/' (parseStrBody r)
    else if e = 'n' then consFst '\n' (parseStrBody r)
    else if e = 't' then consFst '\t' (parseStrBody r)
    else if e = 'r' then consFst '\r' (parseStrBody r)
    else if e = 'b' then consFst (Char.ofNat 8) (parseStrBody r)
    else if e = 'f' then consFst (Char.ofNat 12) (parseStrBody r)
    else Option.none
  | [] => Option.none

end

def digitsVal (l : List Char) : Nat :=
  l.foldl (fun a c => a * 10 + (c.toNat - 48)) 0

/-- Strip trailing decimal zeros from the fractional part: the canonical form
of the float `a / 10 ^ e`. -/
def canonF : Nat → Nat → Nat × Nat
  | a, 0 => (a, 0)
  | a, e + 1 => if a % 10 = 0 then canonF (a / 10) e else (a, e + 1)

def mkFloat (neg : Bool) (a : Nat) (e : Nat) : PyVal :=
  let p := canonF a e
  .float (if neg && decide (p.1 ≠ 0) then -(p.1 : Int) else (p.1 : Int)) p.2

def parseExpTail (orig r : List Char) : Option Int × List Char :=
  let p : Bool × List Char :=
    match r with
    | '+' :: t => (false, t)
    | '-' :: t => (true, t)
    | t => (false, t)
  let ds := p.2.takeWhile isDigitC
  if ds.isEmpty then (Option.none, orig)
  else (some (if p.1 then -(digitsVal ds : Int) else (digitsVal ds : Int)), p.2.dropWhile isDigitC)

def parseExpPart (s : List Char) : Option Int × List Char :=
  match s with
  | 'e' :: r => parseExpTail s r
  | 'E' :: r => parseExpTail s r
  | _ => (Option.none, s)

/-- Split off a leading minus sign. -/
def signSplit : List Char → Bool × List Char
  | '-' :: r => (true, r)
  | r => (false, r)

/-- Fraction/exponent tail of a JSON number, given the sign and integer part. -/
def parseFracExp (neg : Bool) (ip : Nat) : List Char → Option (PyVal × List Char)
  | '.' :: r =>
    let fs := r.takeWhile isDigitC
    let s3 := r.dropWhile isDigitC
    if fs.isEmpty then Option.none
    else
      let mant := ip * 10 ^ fs.length + digitsVal fs
      let ep := parseExpPart s3
      let sc : Int := (match ep.1 with | some k => k | Option.none => 0) - (fs.length : Int)
      if 0 ≤ sc then some (mkFloat neg (mant * 10 ^ sc.toNat) 0, ep.2)
      else some (mkFloat neg mant ((-sc).toNat), ep.2)
  | s2 =>
    match parseExpPart s2 with
    | (some k, s4) =>
      if 0 ≤ k then some (mkFloat neg (ip * 10 ^ k.toNat) 0, s4)
      else some (mkFloat neg ip ((-k).toNat), s4)
    | (Option.none, _) =>
      some (.int (if neg then -(ip : Int) else (ip : Int)), s2)

/-- The unsigned part of `parseNumber`: digits, then fraction/exponent. -/
def parseNumBody (neg : Bool) (s1 : List Char) : Option (PyVal × List Char) :=
  let ds := s1.takeWhile isDigitC
  let s2 := s1.dropWhile isDigitC
  if ds.isEmpty then Option.none
  else if 1 < ds.length ∧ ds.head? = some '0' then Option.none
  else parseFracExp neg (digitsVal ds) s2

/-- Parse a JSON number (int or float) starting at a `-` or digit. -/
def parseNumber (s : List Char) : Option (PyVal × List Char) :=
  let p := signSplit s
  parseNumBody p.1 p.2

/-- `dict` update as done by the JSON decoder on duplicate keys: later value
wins, position of the first occurrence is kept. -/
def insertKV (m : List (String × PyVal)) (k : String) (v : PyVal) : List (String × PyVal) :=
  match m with
  | [] => [(k, v)]
  | (k2, v2) :: t => if k2 = k then (k2, v) :: t else (k2, v2) :: insertKV t k v

mutual

/-- Recursive-descent JSON value parser (fuelled); expects no leading whitespace. -/
def parseValC : Nat → List Char → Option (PyVal × List Char)
  | 0, _ => Option.none
  | fuel + 1, s =>
    match s with
    | [] => Option.none
    | c :: r =>
      if c = '\x7b' then
        (match skipWs r with
         | [] => parseMembers fuel [] []
         | c2 :: r2 =>
           if c2 = '\x7d' then some (.dict [], r2)
           else parseMembers fuel (c2 :: r2) [])
      else if c = '[' then
        (match skipWs r with
         | [] =>
           (match parseElems fuel [] with
            | some (vs, r3) => some (.list vs, r3)
            | Option.none => Option.none)
         | c2 :: r2 =>
           if c2 = ']' then some (.list [], r2)
           else
             (match parseElems fuel (c2 :: r2) with
              | some (vs, r3) => some (.list vs, r3)
              | Option.none => Option.none))
      else if c = '"' then
        (match parseStrBody r with
         | some (cs, r2) => some (.str (String.mk cs), r2)
         | Option.none => Option.none)
      else if c = 't' then
        (match r with
         | 'r' :: 'u' :: 'e' :: r2 => some (.bool true, r2)
         | _ => Option.none)
      else if c = 'f' then
        (match r with
         | 'a' :: 'l' :: 's' :: 'e' :: r2 => some (.bool false, r2)
         | _ => Option.none)
      else if c = 'n' then
        (match r with
         | 'u' :: 'l' :: 'l' :: r2 => some (.none, r2)
         | _ => Option.none)
      else if c = '-' || isDigitC c then parseNumber (c :: r)
      else Option.none

/-- Parse the elements of a non-empty JSON array, up to and including `]`. -/
def parseElems : Nat → List Char → Option (List PyVal × List Char)
  | 0, _ => Option.none
  | fuel + 1, s =>
    match parseValC fuel (skipWs s) with
    | Option.none => Option.none
    | some (v, r) =>
      match skipWs r with
      | ',' :: r2 =>
        (match parseElems fuel r2 with
         | some (vs, r3) => some (v :: vs, r3)
         | Option.none => Option.none)
      | ']' :: r2 => some ([v], r2)
      | _ => Option.none

/-- Parse the members of a non-empty JSON object, up to and including `\x7d`. -/
def parseMembers : Nat → List Char → List (String × PyVal) → Option (PyVal × List Char)
  | 0, _, _ => Option.none
  | fuel + 1, s, acc =>
    match skipWs s with
    | '"' :: r =>
      (match parseStrBody r with
       | Option.none => Option.none
       | some (kcs, r2) =>
         match skipWs r2 with
         | ':' :: r3 =>
           (match parseValC fuel (skipWs r3) with
            | Option.none => Option.none
            | some (v, r4) =>
              match skipWs r4 with
              | ',' :: r5 => parseMembers fuel r5 (insertKV acc (String.mk kcs) v)
              | '\x7d' :: r5 => some (.dict (insertKV acc (String.mk kcs) v), r5)
              | _ => Option.none)
         | _ => Option.none)
    | _ => Option.none

end

/-- `json.loads` on a character list: parse one value, allow surrounding
whitespace, fail on leftover input. -/
def jsonLoads (s : List Char) : Option PyVal :=
  match parseValC (2 * s.length + 8) (skipWs s) with
  | some (v, r) => if (skipWs r).isEmpty then some v else Option.none
  | Option.none => Option.none

/-! ### `json.dumps(..., indent=2)` -/

def jsonEscChar (c : Char) : List Char :=
  if c = '"' then ['\\', '"']
  else if c = '\\' then ['\\', '\\']
  else if c = '\n' then ['\\', 'n']
  else if c = '\r' then ['\\', 'r']
  else if c = '\t' then ['\\', 't']
  else if c.toNat = 8 then ['\\', 'b']
  else if c.toNat = 12 then ['\\', 'f']
  else if c.toNat < 32 then '\\' :: 'u' :: hex4 c.toNat
  else if c.toNat < 127 then [c]
  else if c.toNat < 65536 then '\\' :: 'u' :: hex4 c.toNat
  else
    '\\' :: 'u' :: hex4 (55296 + (c.toNat - 65536) / 1024) ++
      '\\' :: 'u' :: hex4 (56320 + (c.toNat - 65536) % 1024)

def jsonQuote (s : String) : List Char := '"' :: s.data.flatMap jsonEscChar ++ ['"']

def spacesL (n : Nat) : List Char := List.replicate n ' '

mutual

/-- `json.dumps(v, indent=2)` at current indentation `ind`. -/
def dumpsV : Nat → PyVal → List Char
  | _, .none => "null".data
  | _, .bool true => "true".data
  | _, .bool false => "false".data
  | _, .int n => intDigits n
  | _, .float m e => floatDigits m e
  | _, .str s => jsonQuote s
  | _, .list [] => "[]".data
  | ind, .list (x :: t) =>
    '[' :: '\n' :: dumpsItems (ind + 2) (x :: t) ++ '\n' :: spacesL ind ++ [']']
  | _, .dict [] => ['\x7b', '\x7d']
  | ind, .dict (p :: t) =>
    '\x7b' :: '\n' :: dumpsMembers (ind + 2) (p :: t) ++ '\n' :: spacesL ind ++ ['\x7d']

def dumpsItems : Nat → List PyVal → List Char
  | _, [] => []
  | ind, [x] => spacesL ind ++ dumpsV ind x
  | ind, x :: y :: t => spacesL ind ++ dumpsV ind x ++ ',' :: '\n' :: dumpsItems ind (y :: t)

def dumpsMembers : Nat → List (String × PyVal) → List Char
  | _, [] => []
  | ind, [(k, v)] => spacesL ind ++ jsonQuote k ++ ':' :: ' ' :: dumpsV ind v
  | ind, (k, v) :: p :: t =>
    spacesL ind ++ jsonQuote k ++ ':' :: ' ' :: dumpsV ind v ++ ',' :: '\n' :: dumpsMembers ind (p :: t)

end

def jsonDumps (v : PyVal) : String := String.mk (dumpsV 0 v)

/-! ### The display module: `_render_content` -/

/-- The global code theme constant (`CODE_THEME`). -/
def CODE_THEME : String := "stata-dark"

/-- One line-start match of the markdown regex `^#\x7b1,6\x7d\s|^\*\s|^-\s`. -/
def mdHead (l : List Char) : Bool :=
  (let hl := (l.takeWhile (fun c => c = '#')).length
   (1 ≤ hl && hl ≤ 6) &&
     (match l.dropWhile (fun c => c = '#') with
      | c :: _ => pySChar c
      | [] => false))
  || (match l with
      | '*' :: c :: _ => pySChar c
      | '-' :: c :: _ => pySChar c
      | _ => false)

def mdSearchAux : List Char → Bool
  | [] => false
  | '\n' :: t => mdHead t || mdSearchAux t
  | _ :: t => mdSearchAux t

/-- `re.search` of the markdown pattern in MULTILINE mode: some line starts
with 1–6 `#` + whitespace, or `*`/`-` + whitespace. -/
def mdSearch (l : List Char) : Bool := mdHead l || mdSearchAux l

def fenceJson (l : List Char) : String := "```json\n" ++ String.mk l ++ "\n```"

def codeFence (lang : String) (l : List Char) : String :=
  "```" ++ lang ++ "\n" ++ String.mk l ++ "\n```"

/-- `_render_content`: pick a display form for an arbitrary value. -/
def renderContent (content : PyVal) : String :=
  if isNone content then "```\nNone\n```"
  else
    let cs := (pyStrTop content).data
    let st := pyStrip cs
    let jsonTry : Option PyVal :=
      if st.head? = some '\x7b' || st.head? = some '[' then jsonLoads st else Option.none
    match jsonTry with
    | some parsed => fenceJson (dumpsV 0 parsed)
    | Option.none =>
      match content with
      | .dict _ => fenceJson (dumpsV 0 content)
      | .list _ => fenceJson (dumpsV 0 content)
      | _ =>
        if containsSub "```".data cs then String.mk cs
        else if mdSearch st then String.mk cs
        else if cs.contains '\n' &&
            (containsSub "def ".data cs || containsSub "class ".data cs ||
             containsSub "import ".data cs || containsSub "function ".data cs ||
             containsSub "const ".data cs) then
          if containsSub "def ".data cs || containsSub "import ".data cs then
            codeFence "python" cs
          else if containsSub "function ".data cs || containsSub "const ".data cs then
            codeFence "javascript" cs
          else "```\n" ++ String.mk cs ++ "\n```"
        else "```\n" ++ String.mk cs ++ "\n```"

/-! ### `_extract_json_from_textcontent` -/

/-- Does the terminator `',\s*annotations=` of the extraction regex match at
the head of `l`? -/
def termMatchAt (l : List Char) : Bool :=
  match l with
  | '\'' :: ',' :: r => "annotations=".data.isPrefixOf (r.dropWhile pySChar)
  | _ => false

def lastTermIdxAux : List Char → Nat → Option Nat → Option Nat
  | [], _, best => best
  | c :: t, i, best =>
    lastTermIdxAux t (i + 1) (if termMatchAt (c :: t) then some i else best)

/-- The largest index at which the terminator matches (greedy `.*`). -/
def lastTermIdx (l : List Char) : Option Nat := lastTermIdxAux l 0 Option.none

/-- `str.replace` of a backslash-quote pair by a quote. -/
def unescapeQ : List Char → List Char
  | '\\' :: '\'' :: t => '\'' :: unescapeQ t
  | c :: t => c :: unescapeQ t
  | [] => []

/-- `str.replace` of a doubled backslash by a single backslash. -/
def unescapeBS : List Char → List Char
  | '\\' :: '\\' :: t => '\\' :: unescapeBS t
  | c :: t => c :: unescapeBS t
  | [] => []

/-- The payload captured by `re.search` of the extraction pattern: from just
after the first occurrence of the opening marker, up to the last terminator. -/
def extractPayload (l : List Char) : Option (List Char) :=
  match findSub "text='".data l with
  | Option.none => Option.none
  | some i =>
    let body := l.drop (i + 6)
    match lastTermIdx body with
    | Option.none => Option.none
    | some j => some (body.take j)

/-- `_extract_json_from_textcontent` on the string form of the result. -/
def extractJsonS (l : List Char) : Option PyVal :=
  match extractPayload l with
  | Option.none => Option.none
  | some payload => jsonLoads (unescapeBS (unescapeQ payload))

/-- `_extract_json_from_textcontent(result)` (stringifies its argument first). -/
def extractTC (result : PyVal) : Option PyVal := extractJsonS (pyStrTop result).data

/-! ### Console model and step presenters -/

inductive ConsoleEvent where
  | blank : ConsoleEvent
  | panel (title : String) (body : String) (border : String) : ConsoleEvent
  | pretty (item : PyVal) : ConsoleEvent
  | text (s : String) : ConsoleEvent

structure AgentAction where
  tool : Option String
  tool_input : PyVal

inductive AgentStep where
  | pair (action : AgentAction) (result : PyVal) : AgentStep
  | other (item : PyVal) : AgentStep

/-- `f"..."` interpolation of the tool name (`None` when absent). -/
def showToolName : Option String → String
  | some s => s
  | Option.none => "None"

def inputTitle (toolName : Option String) : String :=
  "[dim]🔧[/dim] [bold white]" ++ showToolName toolName ++ "[/bold white] [dim]Input[/dim]"

/-- Python `key in v` for the values this module probes; raises `TypeError`
for non-container values. -/
def pyContainsKey (v : PyVal) (key : String) : Except String Bool :=
  match v with
  | .dict kvs => .ok (hasKey kvs key)
  | .str s => .ok (containsSub key.data s.data)
  | .list xs => .ok (xs.any (fun x => match x with | .str s2 => s2 == key | _ => false))
  | _ => .error "TypeError: argument of type is not iterable"

/-- Python `v[key]` with a string key. -/
def pySubscript (v : PyVal) (key : String) : Except String PyVal :=
  match v with
  | .dict kvs => if hasKey kvs key then .ok (dGet kvs key) else .error "KeyError"
  | .str _ => .error "TypeError: string indices must be integers"
  | .list _ => .error "TypeError: list indices must be integers"
  | _ => .error "TypeError: object is not subscriptable"

/-- The tool-input panels emitted by `_pretty_print_step` / `on_tool_start`
(identical code in both places). -/
def inputPanels (toolName : Option String) (tin : PyVal) : Except String (List ConsoleEvent) :=
  if pyTruthy tin then
    if toolName = some "execute_code" then do
      let hasCode ← pyContainsKey tin "code"
      if hasCode then do
        let code ← pySubscript tin "code"
        let codeEv := ConsoleEvent.panel (inputTitle toolName)
          ("```python\n" ++ pyStrTop code ++ "\n```") "dim white"
        let others := match tin with
          | .dict kvs => kvs.filter (fun kv => kv.1 ≠ "code")
          | _ => []
        if others.isEmpty then .ok [codeEv]
        else .ok [codeEv,
          .panel "[dim]Other Parameters[/dim]" (renderContent (.dict others)) "dim white"]
      else .ok [.panel (inputTitle toolName) (renderContent tin) "dim white"]
    else .ok [.panel (inputTitle toolName) (renderContent tin) "dim white"]
  else .ok []

/-- `f"\x7bexecution_time:.3f\x7d"`: format to three decimals; raises for
non-numeric values (str, list, dict), as Python string formatting does. -/
def roundHalfEvenDiv (num den : Nat) : Nat :=
  let q := num / den
  let r := num % den
  if den < 2 * r then q + 1
  else if 2 * r < den then q
  else if q % 2 = 0 then q
  else q + 1

def pad3 (n : Nat) : List Char := padZeros 3 (natDigits n)

def fmt3F (m : Int) (e : Nat) : String :=
  let t := roundHalfEvenDiv (m.natAbs * 1000) (10 ^ e)
  String.mk ((if m < 0 then ['-'] else []) ++ natDigits (t / 1000) ++ '.' :: pad3 (t % 1000))

def fmt3 : PyVal → Except String String
  | .int n => .ok (String.mk (intDigits n) ++ ".000")
  | .bool true => .ok "1.000"
  | .bool false => .ok "0.000"
  | .float m e => .ok (fmt3F m e)
  | _ => .error "ValueError: Unknown format code f"

/-- `time_str` of the `execute_code` result branch. -/
def timeSuffix (m : List (String × PyVal)) : Except String String :=
  if isNone (dGet m "execution_time") then .ok ""
  else do
    let f ← fmt3 (dGet m "execution_time")
    .ok (" [dim]⏱️  " ++ f ++ "s[/dim]")

/-- `has_logs`: the `logs` key is present with a truthy value. -/
def hasLogsB (m : List (String × PyVal)) : Bool :=
  hasKey m "logs" && pyTruthy (dGet m "logs")

/-- `has_result`: the `result` key is present with a non-`None` value. -/
def hasResultB (m : List (String × PyVal)) : Bool :=
  hasKey m "result" && !(isNone (dGet m "result"))

def hasErrorB (m : List (String × PyVal)) : Bool :=
  hasKey m "error" && !(isNone (dGet m "error"))

/-- A plain result panel (also used for raw / non-special payloads). -/
def resultPanel (v : PyVal) : ConsoleEvent :=
  .panel "[dim]Result[/dim]" (renderContent v) "dim white"

/-- The Result/Logs/Error panels of the `execute_code` special shape. -/
def execCodePanels (m : List (String × PyVal)) : Except String (List ConsoleEvent) := do
  let ts ← timeSuffix m
  let resEvs := if hasResultB m then
      [ConsoleEvent.panel ("[dim]Result[/dim]" ++ (if hasLogsB m then "" else ts))
        (renderContent (dGet m "result")) "dim white"]
    else []
  let logEvs := if hasLogsB m then
      [ConsoleEvent.panel ("[dim]Logs[/dim]" ++ ts) (renderContent (dGet m "logs")) "dim white"]
    else []
  let errEvs := if hasErrorB m then
      [ConsoleEvent.panel "[dim red]Error[/dim red]" (renderContent (dGet m "error")) "red"]
    else []
  .ok (resEvs ++ logEvs ++ errEvs)

/-- The result-rendering branch shared (as duplicated code) by
`_pretty_print_step` and the `on_tool_end` handler. -/
def resultSection (toolName : Option String) (v : PyVal) : Except String (List ConsoleEvent) :=
  match extractTC v with
  | some pj =>
    if pyTruthy pj then
      if toolName = some "execute_code" then
        match pj with
        | .dict m => execCodePanels m
        | _ => .ok [resultPanel pj]
      else .ok [resultPanel pj]
    else .ok [resultPanel v]
  | Option.none => .ok [resultPanel v]

/-- `_pretty_print_step`. -/
def prettyPrintStep : AgentStep → Except String (List ConsoleEvent)
  | .pair a result => do
    let inEvs ← inputPanels a.tool a.tool_input
    let resEvs ← if pyTruthy result then resultSection a.tool result else pure []
    .ok (ConsoleEvent.blank :: inEvs ++ resEvs)
  | .other item => .ok [.pretty item]

/-! ### `_log_step` -/

/-- Truncation used in log mode: strictly more than 100 characters are cut to
the first 97 plus `...`. -/
def truncL (l : List Char) : List Char :=
  if 100 < l.length then l.take 97 ++ "...".data else l

/-- `str.replace` of newlines by spaces. -/
def flattenNl (l : List Char) : List Char :=
  l.map (fun c => if c = '\n' then ' ' else c)

/-- `_log_step`: the logger lines produced for a step. -/
def logStep : AgentStep → List String
  | .pair a result =>
    ["🔧 Tool call: " ++ showToolName a.tool ++ " with input: " ++
       String.mk (truncL (pyStrTop a.tool_input).data),
     "📄 Tool result: " ++ String.mk (flattenNl (truncL (pyStrTop result).data))]
  | .other item => ["Agent step: " ++ pyStrTop item]

/-- `log_agent_step`: console events in pretty mode, logger lines otherwise. -/
def logAgentStep (item : AgentStep) (pretty : Bool) :
    Except String (List ConsoleEvent × List String) :=
  if pretty then (prettyPrintStep item).map (fun evs => (evs, []))
  else .ok ([], logStep item)

/-! ### `log_agent_stream` -/

/-- An element of a `ToolMessage.content` list: an object with a `text`
attribute (its `repr` kept for `str(content)`), a dict, or something else. -/
inductive ContentItem where
  | attr (text : PyVal) (rep : String) : ContentItem
  | ditem (kvs : List (String × PyVal)) : ContentItem
  | plain (v : PyVal) : ContentItem

def contentItemRepr : ContentItem → List Char
  | .attr _ rep => rep.data
  | .ditem kvs => pyReprL (.dict kvs)
  | .plain v => pyReprL v

def contentItemsRepr : List ContentItem → List Char
  | [] => []
  | [x] => contentItemRepr x
  | x :: y :: t => contentItemRepr x ++ ',' :: ' ' :: contentItemsRepr (y :: t)

/-- The `content` attribute of a ToolMessage-like output object. -/
inductive MsgContent where
  | clist (xs : List ContentItem) : MsgContent
  | cstr (s : String) : MsgContent
  | cval (v : PyVal) : MsgContent

/-- The `output` field of an `on_tool_end` event: an object exposing
`content`, a dict, or a plain value. -/
inductive ToolOutput where
  | msg (content : MsgContent) : ToolOutput
  | odict (kvs : List (String × PyVal)) : ToolOutput
  | oval (v : PyVal) : ToolOutput

def outputTruthy : ToolOutput → Bool
  | .msg _ => true
  | .odict kvs => !kvs.isEmpty
  | .oval v => pyTruthy v

/-- The `text_contents` collection loop of the `on_tool_end` handler. -/
def collectItemTexts : List ContentItem → List PyVal
  | [] => []
  | .attr t _ :: rest => t :: collectItemTexts rest
  | .ditem kvs :: rest =>
    if hasKey kvs "text" then dGet kvs "text" :: collectItemTexts rest
    else collectItemTexts rest
  | .plain _ :: rest => collectItemTexts rest

/-- `output_str` derivation of the `on_tool_end` handler. -/
def outputStr : ToolOutput → PyVal
  | .msg (.clist xs) =>
    if xs.isEmpty then .str (String.mk ('[' :: contentItemsRepr xs ++ [']']))
    else
      let tc := collectItemTexts xs
      match tc with
      | [] => .str (String.mk ('[' :: contentItemsRepr xs ++ [']']))
      | [t] => t
      | _ => .str (pyStrTop (.list tc))
  | .msg (.cstr s) => .str s
  | .msg (.cval v) => .str (pyStrTop v)
  | .odict kvs =>
    if hasKey kvs "content" then .str (pyStrTop (dGet kvs "content"))
    else .str (pyStrTop (.dict kvs))
  | .oval v => .str (pyStrTop v)

structure ChunkObj where
  content : PyVal

structure EventData where
  input : PyVal
  output : ToolOutput
  chunk : Option ChunkObj

structure StreamChunk where
  event : Option String
  data : EventData
  name : String

def splitSlash : List Char → List (List Char)
  | [] => [[]]
  | '/' :: t => [] :: splitSlash t
  | c :: t =>
    match splitSlash t with
    | [] => [[c]]
    | h :: r => (c :: h) :: r

/-- `name.split("/")[-1] if "/" in name else name`. -/
def streamToolName (n : String) : String :=
  if containsSub "/".data n.data then String.mk ((splitSlash n.data).getLastD []) else n

/-- `item.get("type")`: only dicts have `.get`. -/
def itemGetType : PyVal → Except String PyVal
  | .dict kvs => .ok (dGet kvs "type")
  | _ => .error "AttributeError: object has no attribute get"

/-- `x == "input_json_delta"`. -/
def isIJD : PyVal → Bool
  | .str s => s == "input_json_delta"
  | _ => false

/-- Python iteration over the chunk `content` value. -/
def pyIterate : PyVal → Except String (List PyVal)
  | .list xs => .ok xs
  | .str s => .ok (s.data.map (fun c => .str (String.mk [c])))
  | .dict kvs => .ok (kvs.map (fun kv => .str kv.1))
  | _ => .error "TypeError: object is not iterable"

/-- The `text_parts` collection loop of the `on_chat_model_stream` handler. -/
def collectTexts : List PyVal → Except String (List PyVal)
  | [] => .ok []
  | item :: rest => do
    let c ← pyContainsKey item "text"
    if c then do
      let ty ← itemGetType item
      if isIJD ty then collectTexts rest
      else do
        let tv ← pySubscript item "text"
        let vs ← collectTexts rest
        .ok (tv :: vs)
    else collectTexts rest

/-- `"".join(text_parts)`: raises unless every part is a string. -/
def joinStrs : List PyVal → Except String String
  | [] => .ok ""
  | .str s :: rest => do
    let r ← joinStrs rest
    .ok (s ++ r)
  | _ :: _ => .error "TypeError: sequence item expected str instance"

/-- The `on_chat_model_stream` branch, given the chunk object. -/
def chatStreamEvents (co : ChunkObj) : Except String (List ConsoleEvent) :=
  if isNone co.content then .ok []
  else do
    let items ← pyIterate co.content
    let parts ← collectTexts items
    let t ← joinStrs parts
    if t = "" then .ok [] else .ok [.text t]

/-- `log_agent_stream`. -/
def logAgentStream (c : StreamChunk) (pretty : Bool) : Except String (List ConsoleEvent) :=
  if pretty then
    match c.event with
    | some "on_tool_start" => do
      let evs ← inputPanels (some (streamToolName c.name)) c.data.input
      .ok (ConsoleEvent.blank :: evs)
    | some "on_tool_end" =>
      if outputTruthy c.data.output then
        let os := outputStr c.data.output
        if pyTruthy os then resultSection (some (streamToolName c.name)) os
        else .ok [resultPanel os]
      else .ok []
    | some "on_chat_model_stream" =>
      (match c.data.chunk with
       | some co => chatStreamEvents co
       | Option.none => .ok [])
    | _ => .ok []
  else .ok []

/-- Text written directly to stdout by a list of console events. -/
def writtenText : List ConsoleEvent → String
  | [] => ""
  | .text s :: rest => s ++ writtenText rest
  | _ :: rest => writtenText rest

/-! ### The example server tool -/

/-- `sum_fish` of `examples/server/fastmcp2_example.py`. -/
def sum_fish (a b : Int) : Int := a + b + 1000

/-- The declared tool description of `sum_fish`. -/
def sum_fish_description : String := "Sum two numbers."

/-! ## Claims -/

/-- Claim C9: the example server tool `sum_fish`, declared with description
"Sum two numbers.", returns `a + b + 1000` for every pair of integers, and in
particular never `a + b`. -/
theorem sum_fish_adds_1000 :
    sum_fish_description = "Sum two numbers." ∧
    ∀ a b : Int, sum_fish a b = a + b + 1000 ∧ sum_fish a b ≠ a + b := by
  refine ⟨rfl, fun a b => ⟨rfl, ?_⟩⟩
  simp only [sum_fish]
  omega

/-- Claim C10: with the pretty-print flag off, the stream presenter returns at
once for every chunk: no console events, no exception, and (as the model has no
logger sink in this function at all) nothing logged. -/
theorem log_agent_stream_pretty_false_noop :
    ∀ c : StreamChunk, logAgentStream c false = .ok [] :=
  fun _ => rfl

/-- Claim C4 counterexample: on the empty string the Content Renderer does not
return the literal "None" code block; it returns an untyped code block with an
empty body. -/
theorem render_none_empty_string_cex :
    renderContent (.str "") = "```\n\n```" ∧
    renderContent (.str "") ≠ "```\nNone\n```" := by
  exact ⟨rfl, by decide⟩

/-- Claim C4 (amended): the Content Renderer returns the literal "None" code
block exactly for the absent value `None` (rule 1); an empty string instead
falls through to the default untyped code block with empty body. -/
theorem render_none_literal :
    renderContent PyVal.none = "```\nNone\n```" ∧
    renderContent (.str "") = "```\n\n```" :=
  ⟨rfl, rfl⟩

/-- Claim C2: the embedded-JSON extractor is exactly: capture the payload
(greedily, to the last terminator), unescape backslash-quote then doubled
backslash, and JSON-decode; with the spec's concrete instances, a greedy-match
instance, an escaped-quote instance, and the two failure modes. -/
theorem extract_json_pipeline :
    (∀ (l : List Char) (p : List Char), extractPayload l = some p →
        extractJsonS l = jsonLoads (unescapeBS (unescapeQ p))) ∧
    (∀ l : List Char, extractPayload l = Option.none → extractJsonS l = Option.none) ∧
    extractJsonS "text='\x7b\"a\": 1\x7d', annotations=None".data = some (.dict [("a", .int 1)]) ∧
    extractJsonS "a text='\"x', annotations=y\"', annotations=END".data =
      some (.str "x', annotations=y") ∧
    extractJsonS "text='\x7b\"a\": \"it\\'s ok\"\x7d', annotations=None".data =
      some (.dict [("a", .str "it's ok")]) ∧
    extractJsonS "no marker here".data = Option.none ∧
    extractJsonS "text='nope', annotations=".data = Option.none := by
  refine ⟨?_, ?_, rfl, rfl, rfl, rfl, rfl⟩
  · intro l p h
    unfold extractJsonS
    rw [h]
  · intro l h
    unfold extractJsonS
    rw [h]

/-- Witness for C2: the pipeline decomposition applied at a concrete input. -/
theorem extract_json_pipeline_witness :
    extractJsonS "text='1', annotations=".data =
      jsonLoads (unescapeBS (unescapeQ "1".data)) :=
  extract_json_pipeline.1 _ "1".data rfl

/-- Claim C8: in log mode a pair step logs exactly two lines; any tool-input or
result string of strictly more than 100 characters is cut to its first 97
characters plus "...", making exactly 100; the result string additionally has
every newline replaced by a space. -/
theorem log_step_truncation :
    (∀ (a : AgentAction) (res : PyVal),
      logStep (.pair a res) =
        ["🔧 Tool call: " ++ showToolName a.tool ++ " with input: " ++
           String.mk (truncL (pyStrTop a.tool_input).data),
         "📄 Tool result: " ++ String.mk (flattenNl (truncL (pyStrTop res).data))]) ∧
    (∀ l : List Char, 100 < l.length →
      truncL l = l.take 97 ++ "...".data ∧ (truncL l).length = 100) ∧
    (∀ l : List Char, '\n' ∉ flattenNl l) := by
  refine ⟨fun a res => rfl, fun l h => ?_, fun l hmem => ?_⟩
  · constructor
    · simp only [truncL, if_pos h]
    · have h3 : ("...".data).length = 3 := rfl
      simp only [truncL, if_pos h, List.length_append, List.length_take, h3]
      omega
  · simp only [flattenNl, List.mem_map] at hmem
    obtain ⟨c, _, hc⟩ := hmem
    by_cases h : c = '\n' <;> simp [h] at hc

/-- Witness for C8: truncation at a concrete 101-character string. -/
theorem log_step_truncation_witness :
    truncL (List.replicate 101 'a') = (List.replicate 101 'a').take 97 ++ "...".data ∧
    (truncL (List.replicate 101 'a')).length = 100 :=
  log_step_truncation.2.1 (List.replicate 101 'a') (by simp)

/-- Claim C1 counterexample: a result that decodes to the empty mapping. The
mapping has no non-null `result` key, so by the claim no Result panel may be
emitted; the code emits one (the raw-result panel), because the decoded payload
is falsy and the presenter falls to the raw branch. -/
theorem exec_code_empty_mapping_cex :
    extractTC (.str "text='\x7b\x7d', annotations=None") = some (.dict []) ∧
    prettyPrintStep (.pair ⟨some "execute_code", .dict []⟩
        (.str "text='\x7b\x7d', annotations=None")) =
      .ok [.blank, resultPanel (.str "text='\x7b\x7d', annotations=None")] :=
  ⟨rfl, rfl⟩

/-- Claim C1 (amended): for a Step with tool `execute_code` whose result
decodes to a non-empty (truthy) mapping, the panels after the input panels are,
in order: Result (iff `result` present and non-null), Logs (iff `logs` present
and truthy), Error (iff `error` present and non-null); the time suffix (from
`timeSuffix`, empty when `execution_time` is absent/null) goes on the Result
title only when there are no logs, and always on the Logs title. -/
theorem exec_code_panels_amended
    (a : AgentAction) (res : PyVal) (m : List (String × PyVal))
    (ips : List ConsoleEvent) (ts : String)
    (htool : a.tool = some "execute_code")
    (hres : pyTruthy res = true)
    (hext : extractTC res = some (.dict m))
    (hm : m ≠ [])
    (hin : inputPanels a.tool a.tool_input = .ok ips)
    (hts : timeSuffix m = .ok ts) :
    prettyPrintStep (.pair a res) = .ok (.blank :: ips ++
      ((if hasResultB m then
          [ConsoleEvent.panel ("[dim]Result[/dim]" ++ (if hasLogsB m then "" else ts))
            (renderContent (dGet m "result")) "dim white"] else []) ++
       (if hasLogsB m then
          [ConsoleEvent.panel ("[dim]Logs[/dim]" ++ ts)
            (renderContent (dGet m "logs")) "dim white"] else []) ++
       (if hasErrorB m then
          [ConsoleEvent.panel "[dim red]Error[/dim red]"
            (renderContent (dGet m "error")) "red"] else []))) := by
  have hmt : pyTruthy (.dict m) = true := by
    cases m with
    | nil => exact absurd rfl hm
    | cons p t => rfl
  rw [htool] at hin
  simp only [prettyPrintStep, htool, hin, hres, if_true, if_pos rfl, resultSection, hext, hmt,
    execCodePanels, hts]
  rfl

/-- Witness for C1 (amended): the spec's concrete payload
`\x7b"result": 5, "logs": "", "execution_time": 0.002\x7d` produces exactly one
Result panel carrying the time suffix and no Logs panel. -/
theorem exec_code_panels_amended_witness :
    prettyPrintStep (.pair ⟨some "execute_code", .dict [("code", .str "print(1)")]⟩
        (.str "[TextContent(type='text', text='\x7b\"result\": 5, \"logs\": \"\", \"execution_time\": 0.002\x7d', annotations=None)]")) =
      .ok [.blank,
        .panel (inputTitle (some "execute_code")) "```python\nprint(1)\n```" "dim white",
        .panel "[dim]Result[/dim] [dim]⏱️  0.002s[/dim]" (renderContent (.int 5)) "dim white"] := by
  exact exec_code_panels_amended
    ⟨some "execute_code", .dict [("code", .str "print(1)")]⟩
    (.str "[TextContent(type='text', text='\x7b\"result\": 5, \"logs\": \"\", \"execution_time\": 0.002\x7d', annotations=None)]")
    [("result", .int 5), ("logs", .str ""), ("execution_time", .float 2 3)]
    [.panel (inputTitle (some "execute_code")) "```python\nprint(1)\n```" "dim white"]
    " [dim]⏱️  0.002s[/dim]"
    rfl rfl rfl (by simp) rfl rfl

/-- Claim C6 counterexample: extraction succeeds with the falsy decoded payload
`[]`, but the presenter renders the raw result string, not the decoded payload,
under the Result panel. -/
theorem extract_falsy_renders_raw_cex :
    extractTC (.str "text='[]', annotations=None") = some (.list []) ∧
    prettyPrintStep (.pair ⟨some "t", .dict []⟩ (.str "text='[]', annotations=None")) =
      .ok [.blank, resultPanel (.str "text='[]', annotations=None")] ∧
    renderContent (.str "text='[]', annotations=None") ≠ renderContent (.list []) :=
  ⟨rfl, rfl, by decide⟩

/-- Claim C6 (amended): for a Step with a truthy result, when extraction
succeeds with a truthy payload that is not the `execute_code` mapping shape the
decoded payload is rendered under a Result panel; when extraction fails, or
succeeds with a falsy payload, the raw result is rendered under a Result
panel. -/
theorem extract_result_panel_amended
    (a : AgentAction) (res : PyVal) (ips : List ConsoleEvent)
    (hin : inputPanels a.tool a.tool_input = .ok ips)
    (hres : pyTruthy res = true) :
    (∀ pj, extractTC res = some pj → pyTruthy pj = true →
        (a.tool = some "execute_code" → ∀ kvs, pj ≠ .dict kvs) →
        prettyPrintStep (.pair a res) = .ok (.blank :: ips ++ [resultPanel pj])) ∧
    (∀ pj, extractTC res = some pj → pyTruthy pj = false →
        prettyPrintStep (.pair a res) = .ok (.blank :: ips ++ [resultPanel res])) ∧
    (extractTC res = Option.none →
        prettyPrintStep (.pair a res) = .ok (.blank :: ips ++ [resultPanel res])) := by
  refine ⟨fun pj hext hpj hshape => ?_, fun pj hext hpj => ?_, fun hext => ?_⟩
  · simp only [prettyPrintStep, hin, hres, if_pos rfl, resultSection, hext, hpj]
    by_cases htool : a.tool = some "execute_code"
    · have hnd : ∀ kvs, pj ≠ .dict kvs := hshape htool
      simp only [htool, if_pos rfl]
      cases pj with
      | dict kvs => exact absurd rfl (hnd kvs)
      | none => rfl
      | bool b => rfl
      | int n => rfl
      | float mm e => rfl
      | str s => rfl
      | list xs => rfl
    · simp only [if_neg htool]
      rfl
  · simp only [prettyPrintStep, hin, hres, if_pos rfl, resultSection, hext, hpj]
    rfl
  · simp only [prettyPrintStep, hin, hres, if_pos rfl, resultSection, hext]
    rfl

/-- Witness for C6 (amended): a truthy non-mapping decode rendered under a
Result panel, at a concrete input. -/
theorem extract_result_panel_amended_witness :
    prettyPrintStep (.pair ⟨some "t", .dict []⟩ (.str "text='\"x\"', annotations=")) =
      .ok [.blank, resultPanel (.str "x")] := by
  have h := (extract_result_panel_amended ⟨some "t", .dict []⟩
    (.str "text='\"x\"', annotations=") [] rfl rfl).1 (.str "x") rfl rfl
    (fun htool => by simp at htool)
  exact h

/-- Claim C3 counterexample: a decoded `execute_code` payload with a non-null,
non-numeric `execution_time` makes the presenter raise (Python: `ValueError`
from `.3f` formatting) instead of degrading. -/
theorem exec_time_format_raises_cex :
    prettyPrintStep (.pair ⟨some "execute_code", .dict []⟩
        (.str "text='\x7b\"execution_time\": \"oops\", \"result\": 1\x7d', annotations=None")) =
      .error "ValueError: Unknown format code f" :=
  rfl

/-! ### Helper lemmas for the Except monad and stream claims -/

theorem exbind_ok {α β : Type} (a : α) (f : α → Except String β) :
    (Except.ok a >>= f : Except String β) = f a := rfl

theorem exbind_err {α β : Type} (e : String) (f : α → Except String β) :
    ((Except.error e : Except String α) >>= f) = .error e := rfl

theorem exOk_exists {α : Type} (x : Except String α) (h : x.isOk = true) :
    ∃ a, x = .ok a := by
  cases x with
  | ok a => exact ⟨a, rfl⟩
  | error e => exact absurd h (by simp [Except.isOk, Except.toBool])

theorem isOk_ok {α : Type} (a : α) : (Except.ok a : Except String α).isOk = true := rfl

theorem isOk_ite {α : Type} (c : Prop) [Decidable c] (x y : Except String α) :
    (if c then x else y).isOk = if c then x.isOk else y.isOk := by
  split <;> rfl

def strConcat : List String → String
  | [] => ""
  | s :: t => s ++ strConcat t

/-- The text contributed by one chunk-content mapping: its `text` field unless
the element's `type` is `input_json_delta` or `text` is absent. -/
def pickText (kvs : List (String × PyVal)) : Option String :=
  if hasKey kvs "text" && !(isIJD (dGet kvs "type")) then
    some (match dGet kvs "text" with | .str s => s | _ => "")
  else Option.none

theorem collectTexts_dicts (items : List (List (String × PyVal)))
    (h : ∀ kvs ∈ items, hasKey kvs "text" = true → ∃ s, dGet kvs "text" = .str s) :
    collectTexts (items.map PyVal.dict) = .ok ((items.filterMap pickText).map PyVal.str) := by
  induction items with
  | nil => rfl
  | cons kvs rest ih =>
    have hrest := ih (fun k hk hh => h k (List.mem_cons_of_mem _ hk) hh)
    by_cases hk : hasKey kvs "text" = true
    · by_cases hij : isIJD (dGet kvs "type") = true
      · simp only [List.map_cons, collectTexts, pyContainsKey, exbind_ok, hk, if_true,
          itemGetType, hij, hrest, List.filterMap_cons, pickText, Bool.not_true,
          Bool.and_false, if_false]
        simp
      · obtain ⟨s, hs⟩ := h kvs (List.mem_cons_self _ _) hk
        simp only [List.map_cons, collectTexts, pyContainsKey, exbind_ok, hk, if_true,
          itemGetType, hij, if_false, pySubscript, hrest, hs, List.filterMap_cons, pickText,
          Bool.not_false, Bool.and_true, List.map_cons]
        simp [hk, hij, hs]
    · simp only [List.map_cons, collectTexts, pyContainsKey, exbind_ok, hk, if_false,
        hrest, List.filterMap_cons, pickText, Bool.false_and, Bool.and_eq_true]
      simp [hk]

theorem joinStrs_map_str (ss : List String) :
    joinStrs (ss.map PyVal.str) = .ok (strConcat ss) := by
  induction ss with
  | nil => rfl
  | cons s t ih => simp only [List.map_cons, joinStrs, ih, exbind_ok, strConcat]

/-- Claim C7: for an `on_chat_model_stream` event whose chunk content is a
sequence of mappings (with string `text` values), the text written is exactly
the in-order concatenation of the `text` fields of the elements whose `type`
is not `input_json_delta` (no trailing newline is ever appended, and
`input_json_delta` text never appears). -/
theorem chat_stream_text_filtered (nm : String) (tin : PyVal) (out : ToolOutput)
    (items : List (List (String × PyVal)))
    (h : ∀ kvs ∈ items, hasKey kvs "text" = true → ∃ s, dGet kvs "text" = .str s) :
    ∃ evs,
      logAgentStream ⟨some "on_chat_model_stream",
        ⟨tin, out, some ⟨.list (items.map PyVal.dict)⟩⟩, nm⟩ true = .ok evs ∧
      writtenText evs = strConcat (items.filterMap pickText) := by
  have hc := collectTexts_dicts items h
  have hstream : logAgentStream ⟨some "on_chat_model_stream",
      ⟨tin, out, some ⟨.list (items.map PyVal.dict)⟩⟩, nm⟩ true =
      chatStreamEvents ⟨.list (items.map PyVal.dict)⟩ := rfl
  rw [hstream]
  unfold chatStreamEvents
  simp only [isNone, Bool.false_eq_true, if_false, pyIterate, exbind_ok, hc, joinStrs_map_str]
  by_cases ht : strConcat (items.filterMap pickText) = ""
  · refine ⟨[], ?_, by rw [ht]; rfl⟩
    simp [ht]
  · refine ⟨[.text (strConcat (items.filterMap pickText))], ?_, ?_⟩
    · simp only [if_neg ht]
    · simp only [writtenText]
      exact String.append_empty _

/-- Witness for C7: a concrete two-element chunk where the
`input_json_delta` text is dropped and the remaining text is written. -/
theorem chat_stream_text_filtered_witness :
    ∃ evs,
      logAgentStream ⟨some "on_chat_model_stream",
        ⟨.dict [], .oval (.str ""),
         some ⟨.list [.dict [("text", .str "skip"), ("type", .str "input_json_delta")],
                      .dict [("text", .str "hello")]]⟩⟩, "m"⟩ true = .ok evs ∧
      writtenText evs = "hello" := by
  have h := chat_stream_text_filtered "m" (.dict []) (.oval (.str ""))
    [[("text", .str "skip"), ("type", .str "input_json_delta")], [("text", .str "hello")]]
    (by
      intro kvs hm ht
      simp only [List.mem_cons, List.not_mem_nil, or_false] at hm
      rcases hm with h1 | h2
      · subst h1; exact ⟨"skip", rfl⟩
      · subst h2; exact ⟨"hello", rfl⟩)
  exact h

/-! ### Well-shapedness predicates: the inputs on which no exception is raised -/

def isStrB : PyVal → Bool
  | .str _ => true
  | _ => false

/-- A chunk-content element that the streaming text loop handles without
raising: a mapping whose `text` value (when used) is a string, or a string
that does not contain `text`, or a list not containing the string `code`. -/
def itemOkB : PyVal → Bool
  | .dict kvs =>
    !(hasKey kvs "text") || isIJD (dGet kvs "type") || isStrB (dGet kvs "text")
  | .str s => !(containsSub "text".data s.data)
  | .list xs => !(xs.any (fun x => match x with | .str s2 => s2 == "text" | _ => false))
  | _ => false

def chatOkB : PyVal → Bool
  | .none => true
  | .list xs => xs.all itemOkB
  | .str _ => true
  | .dict kvs => kvs.all (fun kv => itemOkB (.str kv.1))
  | _ => false

def inputOkB (tn : Option String) (tin : PyVal) : Bool :=
  !(pyTruthy tin) || !(decide (tn = some "execute_code")) ||
  (match tin with
   | .dict _ => true
   | .str s => !(containsSub "code".data s.data)
   | .list xs => !(xs.any (fun x => match x with | .str s2 => s2 == "code" | _ => false))
   | _ => false)

def timeOkB (m : List (String × PyVal)) : Bool :=
  match dGet m "execution_time" with
  | .none => true
  | .bool _ => true
  | .int _ => true
  | .float _ _ => true
  | _ => false

def resultOkB (tn : Option String) (v : PyVal) : Bool :=
  match extractTC v with
  | some (.dict m) =>
    if pyTruthy (.dict m) && decide (tn = some "execute_code") then timeOkB m else true
  | _ => true

def stepOkB : AgentStep → Bool
  | .pair a res => inputOkB a.tool a.tool_input && (!(pyTruthy res) || resultOkB a.tool res)
  | .other _ => true

def chunkOkB (c : StreamChunk) : Bool :=
  match c.event with
  | some "on_tool_start" => inputOkB (some (streamToolName c.name)) c.data.input
  | some "on_tool_end" =>
    !(outputTruthy c.data.output) ||
      !(pyTruthy (outputStr c.data.output)) ||
      resultOkB (some (streamToolName c.name)) (outputStr c.data.output)
  | some "on_chat_model_stream" =>
    (match c.data.chunk with
     | some co => chatOkB co.content
     | Option.none => true)
  | _ => true

theorem timeSuffix_ok (m : List (String × PyVal)) (h : timeOkB m = true) :
    ∃ s, timeSuffix m = .ok s := by
  unfold timeOkB at h
  unfold timeSuffix
  cases hdg : dGet m "execution_time" with
  | none => exact ⟨"", rfl⟩
  | bool b => cases b <;> exact ⟨_, rfl⟩
  | int n => exact ⟨_, rfl⟩
  | float mm e => exact ⟨_, rfl⟩
  | str s => rw [hdg] at h; exact absurd h (by simp)
  | list xs => rw [hdg] at h; exact absurd h (by simp)
  | dict kvs => rw [hdg] at h; exact absurd h (by simp)

theorem resultSection_ok (tn : Option String) (v : PyVal) (h : resultOkB tn v = true) :
    ∃ evs, resultSection tn v = .ok evs := by
  unfold resultOkB at h
  unfold resultSection
  cases hext : extractTC v with
  | none => exact ⟨[resultPanel v], rfl⟩
  | some pj =>
    rw [hext] at h
    by_cases hpt : pyTruthy pj = true
    case neg => exact ⟨[resultPanel v], by simp [hext, hpt]⟩
    by_cases he : tn = some "execute_code"
    case neg => exact ⟨[resultPanel pj], by simp [hext, hpt, he]⟩
    cases pj with
    | dict m =>
      have htk : timeOkB m = true := by simpa [hpt, he] using h
      obtain ⟨s, hts⟩ := timeSuffix_ok m htk
      apply exOk_exists
      simp [hext, hpt, he, execCodePanels, hts, exbind_ok, Except.isOk, Except.toBool]
    | none => exact ⟨[resultPanel .none], by simp [hext, hpt, he]⟩
    | bool b => exact ⟨[resultPanel (.bool b)], by simp [hext, hpt, he]⟩
    | int n => exact ⟨[resultPanel (.int n)], by simp [hext, hpt, he]⟩
    | float mm e => exact ⟨[resultPanel (.float mm e)], by simp [hext, hpt, he]⟩
    | str s => exact ⟨[resultPanel (.str s)], by simp [hext, hpt, he]⟩
    | list xs => exact ⟨[resultPanel (.list xs)], by simp [hext, hpt, he]⟩

theorem inputPanels_ok (tn : Option String) (tin : PyVal) (h : inputOkB tn tin = true) :
    ∃ evs, inputPanels tn tin = .ok evs := by
  apply exOk_exists
  unfold inputOkB at h
  unfold inputPanels
  by_cases ht : pyTruthy tin = true
  case neg => simp [ht, isOk_ok]
  by_cases he : tn = some "execute_code"
  case neg => simp [ht, he, isOk_ok]
  rw [if_pos ht, if_pos he]
  cases tin with
  | dict kvs =>
    by_cases hc : hasKey kvs "code" = true
    · simp [pyContainsKey, exbind_ok, hc, pySubscript, isOk_ite, isOk_ok]
    · simp [pyContainsKey, exbind_ok, hc, isOk_ok]
  | str s =>
    have hcs : containsSub "code".data s.data = false := by
      simpa [ht, he] using h
    simp [pyContainsKey, exbind_ok, hcs, isOk_ok]
  | list xs =>
    have hcs : (xs.any (fun x => match x with | .str s2 => s2 == "code" | _ => false))
        = false := by
      simpa [ht, he] using h
    simp [pyContainsKey, exbind_ok, hcs, isOk_ok]
  | none => simp [ht, he] at h
  | bool b => simp [ht, he] at h
  | int n => simp [ht, he] at h
  | float mm e => simp [ht, he] at h

theorem itemOk_char (c : Char) : itemOkB (.str (String.mk [c])) = true := by
  simp [itemOkB, containsSub, List.isPrefixOf]

theorem collectTexts_ok (itemsL : List PyVal) (h : itemsL.all itemOkB = true) :
    ∃ parts, collectTexts itemsL = .ok parts ∧ parts.all isStrB = true := by
  induction itemsL with
  | nil => exact ⟨[], rfl, rfl⟩
  | cons it rest ih =>
    rw [List.all_cons, Bool.and_eq_true] at h
    obtain ⟨parts, hp, hps⟩ := ih h.2
    cases it with
    | dict kvs =>
      by_cases hk : hasKey kvs "text" = true
      · by_cases hij : isIJD (dGet kvs "type") = true
        · exact ⟨parts, by simp [collectTexts, pyContainsKey, exbind_ok, hk, itemGetType,
            hij, hp], hps⟩
        · have hstr : isStrB (dGet kvs "text") = true := by
            have h1 := h.1
            simpa [itemOkB, hk, hij] using h1
          exact ⟨dGet kvs "text" :: parts, by simp [collectTexts, pyContainsKey, exbind_ok,
            hk, itemGetType, hij, pySubscript, hp], by simp [hps, hstr]⟩
      · exact ⟨parts, by simp [collectTexts, pyContainsKey, exbind_ok, hk, hp], hps⟩
    | str s =>
      have hcs : containsSub "text".data s.data = false := by
        have h1 := h.1
        simpa [itemOkB] using h1
      exact ⟨parts, by simp [collectTexts, pyContainsKey, exbind_ok, hcs, hp], hps⟩
    | list xs =>
      have hcs : (xs.any (fun x => match x with | .str s2 => s2 == "text" | _ => false))
          = false := by
        have h1 := h.1
        simpa [itemOkB] using h1
      exact ⟨parts, by simp [collectTexts, pyContainsKey, exbind_ok, hcs, hp], hps⟩
    | none => exact absurd h.1 (by simp [itemOkB])
    | bool b => exact absurd h.1 (by simp [itemOkB])
    | int n => exact absurd h.1 (by simp [itemOkB])
    | float mm e => exact absurd h.1 (by simp [itemOkB])

theorem joinStrs_ok (parts : List PyVal) (h : parts.all isStrB = true) :
    ∃ t, joinStrs parts = .ok t := by
  induction parts with
  | nil => exact ⟨"", rfl⟩
  | cons p rest ih =>
    rw [List.all_cons, Bool.and_eq_true] at h
    obtain ⟨t, hjt⟩ := ih h.2
    cases p with
    | str s => exact ⟨s ++ t, by simp [joinStrs, hjt, exbind_ok]⟩
    | none => exact absurd h.1 (by simp [isStrB])
    | bool b => exact absurd h.1 (by simp [isStrB])
    | int n => exact absurd h.1 (by simp [isStrB])
    | float mm e => exact absurd h.1 (by simp [isStrB])
    | list xs => exact absurd h.1 (by simp [isStrB])
    | dict kvs => exact absurd h.1 (by simp [isStrB])

theorem chatStreamEvents_ok (co : ChunkObj) (h : chatOkB co.content = true) :
    ∃ evs, chatStreamEvents co = .ok evs := by
  obtain ⟨cv⟩ := co
  unfold chatStreamEvents
  simp only at h
  by_cases hn : isNone cv = true
  · exact ⟨[], by simp [hn]⟩
  have hall : ∃ itemsL, pyIterate cv = .ok itemsL ∧ itemsL.all itemOkB = true := by
    cases cv with
    | none => exact absurd rfl hn
    | list xs => exact ⟨xs, rfl, by simpa [chatOkB] using h⟩
    | str s =>
      refine ⟨_, rfl, List.all_eq_true.mpr ?_⟩
      intro x hx
      obtain ⟨c, _, rfl⟩ := List.mem_map.mp hx
      exact itemOk_char c
    | dict kvs =>
      refine ⟨_, rfl, List.all_eq_true.mpr ?_⟩
      intro x hx
      obtain ⟨kv, hkv, rfl⟩ := List.mem_map.mp hx
      have hh : kvs.all (fun kv => itemOkB (.str kv.1)) = true := h
      exact List.all_eq_true.mp hh kv hkv
    | bool b => exact absurd h (by simp [chatOkB])
    | int n => exact absurd h (by simp [chatOkB])
    | float mm e => exact absurd h (by simp [chatOkB])
  obtain ⟨itemsL, hit, hall2⟩ := hall
  obtain ⟨parts, hp, hps⟩ := collectTexts_ok itemsL hall2
  obtain ⟨t, hjt⟩ := joinStrs_ok parts hps
  by_cases htt : t = ""
  · exact ⟨[], by simp [hn, hit, exbind_ok, hp, hjt, htt]⟩
  · exact ⟨[.text t], by simp [hn, hit, exbind_ok, hp, hjt, htt]⟩

theorem prettyPrintStep_okOf (step : AgentStep) (h : stepOkB step = true) :
    ∃ evs, prettyPrintStep step = .ok evs := by
  cases step with
  | other item => exact ⟨_, rfl⟩
  | pair a res =>
    simp only [stepOkB, Bool.and_eq_true] at h
    obtain ⟨ips, hips⟩ := inputPanels_ok a.tool a.tool_input h.1
    by_cases hres : pyTruthy res = true
    · have hro : resultOkB a.tool res = true := by
        have h2 := h.2
        simpa [hres] using h2
      obtain ⟨revs, hr⟩ := resultSection_ok a.tool res hro
      apply exOk_exists
      simp [prettyPrintStep, hips, hres, hr, exbind_ok, isOk_ok]
    · apply exOk_exists
      simp [prettyPrintStep, hips, hres, exbind_ok, isOk_ok]

theorem logAgentStream_okOf (c : StreamChunk) (pretty : Bool) (h : chunkOkB c = true) :
    ∃ evs, logAgentStream c pretty = .ok evs := by
  cases pretty
  case false => exact ⟨[], rfl⟩
  case true =>
    obtain ⟨ev, da, nm⟩ := c
    simp only [chunkOkB] at h
    unfold logAgentStream
    cases ev with
    | none => exact ⟨[], rfl⟩
    | some s =>
      by_cases h1 : s = "on_tool_start"
      · subst h1
        obtain ⟨ips, hips⟩ := inputPanels_ok (some (streamToolName nm)) da.input
          (by simpa using h)
        apply exOk_exists
        simp [hips, exbind_ok, isOk_ok]
      · by_cases h2 : s = "on_tool_end"
        · subst h2
          by_cases hot : outputTruthy da.output = true
          · by_cases hpt : pyTruthy (outputStr da.output) = true
            · have hro : resultOkB (some (streamToolName nm)) (outputStr da.output) = true := by
                simpa [hot, hpt] using h
              obtain ⟨revs, hr⟩ := resultSection_ok _ _ hro
              exact ⟨revs, by simp [hot, hpt, hr]⟩
            · exact ⟨[resultPanel (outputStr da.output)], by simp [hot, hpt]⟩
          · exact ⟨[], by simp [hot]⟩
        · by_cases h3 : s = "on_chat_model_stream"
          · subst h3
            cases hco : da.chunk with
            | none => exact ⟨[], by simp [hco]⟩
            | some co =>
              rw [hco] at h
              obtain ⟨evs, hevs⟩ := chatStreamEvents_ok co (by simpa using h)
              exact ⟨evs, by simp [hco, hevs]⟩
          · exact ⟨[], by simp [h1, h2, h3]⟩

/-- Claim C3 (amended): the formatter raises no exception on any step or
stream event whose fields have the shapes the code indexes and iterates (and,
in a decoded `execute_code` payload, whose `execution_time` is absent, null, or
numeric); every decode failure falls through silently.  A non-null non-numeric
`execution_time` does raise (see the counterexample). -/
theorem no_exception_amended :
    (∀ step : AgentStep, stepOkB step = true → ∃ evs, prettyPrintStep step = .ok evs) ∧
    (∀ (c : StreamChunk) (pretty : Bool), chunkOkB c = true →
      ∃ evs, logAgentStream c pretty = .ok evs) :=
  ⟨prettyPrintStep_okOf, logAgentStream_okOf⟩

/-- Witness for C3 (amended): a well-shaped step with an `execute_code` decode
and a well-shaped stream chunk, both handled without an exception. -/
theorem no_exception_amended_witness :
    (∃ evs, prettyPrintStep (.pair ⟨some "execute_code", .dict [("code", .str "x")]⟩
      (.str "text='\x7b\"result\": 1\x7d', annotations=")) = .ok evs) ∧
    (∃ evs, logAgentStream ⟨some "on_chat_model_stream",
      ⟨.dict [], .oval (.str ""), some ⟨.list [.dict [("text", .str "hi")]]⟩⟩, "m"⟩ true
        = .ok evs) :=
  ⟨no_exception_amended.1 _ rfl, no_exception_amended.2 _ true rfl⟩

/-! ### Parser–printer round trip (used by Claim C5)

The key fact behind the Content Renderer claim: if `json.loads` succeeds on
the Python `repr` of a (well-formed) value, it recovers that value. -/

/-- Well-formed embedded values: floats are in canonical decimal form (no
trailing fractional zeros; zero is `0 / 10 ^ 0`) and dict keys are distinct,
as they are for every value a real `json.loads` / Python dict can produce. -/
def nodupKeysB : List (String × PyVal) → Bool
  | [] => true
  | (k, _) :: t => !(hasKey t k) && nodupKeysB t

mutual

def pyWf : PyVal → Bool
  | .float m e => decide (e = 0) || (decide (m ≠ 0) && decide (m.natAbs % 10 ≠ 0))
  | .list xs => pyWfList xs
  | .dict kvs => nodupKeysB kvs && pyWfKVs kvs
  | _ => true

def pyWfList : List PyVal → Bool
  | [] => true
  | x :: t => pyWf x && pyWfList t

def pyWfKVs : List (String × PyVal) → Bool
  | [] => true
  | (_, v) :: t => pyWf v && pyWfKVs t

end

/-- What may legitimately follow a printed value inside a JSON document. -/
def delimOk : List Char → Prop
  | [] => True
  | c :: _ => c = ',' ∨ c = ']' ∨ c = '\x7d'

theorem digitChar_spec (d : Nat) (h : d < 10) :
    isDigitC (digitChar d) = true ∧ (digitChar d).toNat - 48 = d := by
  interval_cases d <;> exact ⟨rfl, rfl⟩

theorem natDigitsAux_spec (fuel : Nat) :
    ∀ (n a : Nat), n < fuel →
      natDigitsAux fuel n ≠ [] ∧
      (∀ c ∈ natDigitsAux fuel n, isDigitC c = true) ∧
      (natDigitsAux fuel n).foldl (fun acc c => acc * 10 + (c.toNat - 48)) a =
        a * 10 ^ (natDigitsAux fuel n).length + n := by
  induction fuel with
  | zero => intro n a h; omega
  | succ f ih =>
    intro n a h
    by_cases h10 : n < 10
    · refine ⟨by simp [natDigitsAux, h10], ?_, ?_⟩
      · intro c hc
        simp only [natDigitsAux, h10, if_true, List.mem_singleton] at hc
        subst hc
        exact (digitChar_spec n h10).1
      · simp only [natDigitsAux, h10, if_true, List.foldl_cons, List.foldl_nil,
          List.length_singleton, pow_one, (digitChar_spec n h10).2]
    · have hlt : n / 10 < f := by omega
      obtain ⟨hne, hdig, hfold⟩ := ih (n / 10) a hlt
      have hd2 : n % 10 < 10 := Nat.mod_lt _ (by omega)
      refine ⟨by simp [natDigitsAux, h10], ?_, ?_⟩
      · intro c hc
        simp only [natDigitsAux, h10, if_false, List.mem_append, List.mem_singleton] at hc
        rcases hc with hc | hc
        · exact hdig c hc
        · subst hc
          exact (digitChar_spec _ hd2).1
      · simp only [natDigitsAux, h10, if_false, List.foldl_append, List.foldl_cons,
          List.foldl_nil, List.length_append, List.length_singleton]
        rw [ih (n / 10) a hlt |>.2.2]
        rw [pow_succ]
        have := (digitChar_spec _ hd2).2
        rw [this]
        have hnm : n / 10 * 10 + n % 10 = n := by omega
        ring_nf
        omega

theorem natDigits_ne_nil (n : Nat) : natDigits n ≠ [] :=
  (natDigitsAux_spec (n + 1) n 0 (by omega)).1

theorem natDigits_all_digit (n : Nat) : ∀ c ∈ natDigits n, isDigitC c = true :=
  (natDigitsAux_spec (n + 1) n 0 (by omega)).2.1

theorem digitsVal_natDigits (n : Nat) : digitsVal (natDigits n) = n := by
  have h := (natDigitsAux_spec (n + 1) n 0 (by omega)).2.2
  simpa [digitsVal, natDigits] using h

theorem natDigitsAux_fuel_irrel (fuel1 : Nat) :
    ∀ (fuel2 m : Nat), m < fuel1 → m < fuel2 →
      natDigitsAux fuel1 m = natDigitsAux fuel2 m := by
  induction fuel1 with
  | zero => intro fuel2 m hm; omega
  | succ ff ihf =>
    intro fuel2 m hm1 hm2
    cases fuel2 with
    | zero => omega
    | succ ff2 =>
      by_cases hm10 : m < 10
      · simp [natDigitsAux, hm10]
      · simp only [natDigitsAux, hm10, if_false]
        rw [ihf ff2 (m / 10) (by omega) (by omega)]

theorem natDigitsAux_head (fuel : Nat) :
    ∀ n, n < fuel → n ≠ 0 →
      (match natDigitsAux fuel n with
       | c :: _ => c ≠ '0'
       | [] => False) := by
  induction fuel with
  | zero => intro n h; omega
  | succ f ih =>
    intro n h hn
    by_cases h10 : n < 10
    · simp only [natDigitsAux, h10, if_true]
      interval_cases n
      · exact absurd rfl hn
      all_goals simp [digitChar]
    · have hlt : n / 10 < f := by omega
      have hn2 : n / 10 ≠ 0 := by omega
      have := ih (n / 10) hlt hn2
      simp only [natDigitsAux, h10, if_false]
      cases hd : natDigitsAux f (n / 10) with
      | nil => rw [hd] at this; exact absurd this (by simp)
      | cons c t =>
        rw [hd] at this
        simpa using this

theorem natDigits_zero : natDigits 0 = ['0'] := rfl

theorem natDigitsAux_length_le (fuel : Nat) :
    ∀ n k, n < fuel → n < 10 ^ k → 1 ≤ k → (natDigitsAux fuel n).length ≤ k := by
  induction fuel with
  | zero => intro n k h; omega
  | succ f ih =>
    intro n k h hk hk1
    by_cases h10 : n < 10
    · simp only [natDigitsAux, h10, if_true, List.length_singleton]
      omega
    · cases k with
      | zero => omega
      | succ k2 =>
        have hdiv : n / 10 < 10 ^ k2 := by
          rw [pow_succ] at hk
          exact Nat.div_lt_of_lt_mul (by omega)
        have hk2 : 1 ≤ k2 := by
          by_contra hkc
          have hz : k2 = 0 := by omega
          subst hz
          simp at hdiv
          omega
        simp only [natDigitsAux, h10, if_false, List.length_append, List.length_singleton]
        have := ih (n / 10) k2 (by omega) hdiv hk2
        omega

theorem natDigits_length_le (k n : Nat) (hk : n < 10 ^ k) (hk1 : 1 ≤ k) :
    (natDigits n).length ≤ k :=
  natDigitsAux_length_le (n + 1) n k (by omega) hk hk1

/-- Head of the remainder fails the predicate (or the remainder is empty). -/
def headFails (p : Char → Bool) : List Char → Prop
  | [] => True
  | c :: _ => p c = false

theorem takeWhile_all_append (p : Char → Bool) (l r : List Char)
    (hl : ∀ c ∈ l, p c = true) (hr : headFails p r) :
    (l ++ r).takeWhile p = l ∧ (l ++ r).dropWhile p = r := by
  induction l with
  | nil =>
    simp only [List.nil_append]
    cases r with
    | nil => exact ⟨rfl, rfl⟩
    | cons c t =>
      simp only [headFails] at hr
      simp [List.takeWhile, List.dropWhile, hr]
  | cons c t ih =>
    have hc := hl c (by simp)
    obtain ⟨h1, h2⟩ := ih (fun x hx => hl x (by simp [hx]))
    simp [List.takeWhile, List.dropWhile, hc, h1, h2]

theorem skipWs_ws_append (wsl t : List Char) (h : ∀ c ∈ wsl, wsChar c = true) :
    skipWs (wsl ++ t) = skipWs t := by
  induction wsl with
  | nil => simp
  | cons c r ih =>
    have hc := h c (by simp)
    simp only [List.cons_append, skipWs, List.dropWhile, hc]
    exact ih (fun x hx => h x (by simp [hx]))

theorem skipWs_head_nonws (t : List Char) (h : headFails wsChar t) : skipWs t = t := by
  cases t with
  | nil => rfl
  | cons c r =>
    simp only [headFails] at h
    simp [skipWs, List.dropWhile, h]

theorem isDigitC_ne_of (c d : Char) (h : isDigitC c = true) (hd : isDigitC d = false) :
    c ≠ d := by
  intro he
  subst he
  rw [h] at hd
  cases hd

theorem isDigitC_not_ws (c : Char) (h : isDigitC c = true) : wsChar c = false := by
  have h1 := isDigitC_ne_of c ' ' h rfl
  have h2 := isDigitC_ne_of c '\t' h rfl
  have h3 := isDigitC_ne_of c '\n' h rfl
  have h4 := isDigitC_ne_of c '\r' h rfl
  simp [wsChar, h1, h2, h3, h4]

theorem delimOk_not_digit (r : List Char) (h : delimOk r) : headFails isDigitC r := by
  cases r with
  | nil => trivial
  | cons c t =>
    simp only [delimOk] at h
    simp only [headFails]
    rcases h with h | h | h <;> subst h <;> rfl

theorem digitsVal_append_zeros (k : Nat) (l : List Char) :
    digitsVal (List.replicate k '0' ++ l) = digitsVal l := by
  unfold digitsVal
  rw [List.foldl_append]
  have hz : List.foldl (fun acc c => acc * 10 + (c.toNat - 48)) 0 (List.replicate k '0') = 0 := by
    induction k with
    | zero => rfl
    | succ k2 ih => simpa [List.replicate_succ] using ih
  rw [hz]

theorem digitsVal_padZeros (k : Nat) (l : List Char) :
    digitsVal (padZeros k l) = digitsVal l := by
  unfold padZeros
  exact digitsVal_append_zeros (k - l.length) l

theorem padZeros_length (k : Nat) (l : List Char) (h : l.length ≤ k) :
    (padZeros k l).length = k := by
  simp only [padZeros, List.length_append, List.length_replicate]
  omega

theorem padZeros_all_digit (k : Nat) (l : List Char) (h : ∀ c ∈ l, isDigitC c = true) :
    ∀ c ∈ padZeros k l, isDigitC c = true := by
  intro c hc
  simp only [padZeros, List.mem_append, List.mem_replicate] at hc
  rcases hc with ⟨_, hc⟩ | hc
  · subst hc; rfl
  · exact h c hc

theorem natDigits_no_leading_zero (a : Nat) (c : Char) (t : List Char)
    (hct : natDigits a = c :: t) :
    ¬(1 < (c :: t).length ∧ (c :: t).head? = some '0') := by
  by_cases ha : a = 0
  · subst ha
    rw [natDigits_zero] at hct
    injection hct with h1 h2
    subst h1; subst h2
    simp
  · have hh := natDigitsAux_head (a + 1) a (by omega) ha
    have hna : natDigitsAux (a + 1) a = c :: t := hct
    rw [hna] at hh
    simp only at hh
    intro hcon
    simp only [List.head?_cons, Option.some.injEq] at hcon
    exact hh hcon.2

/-- The trailing part of `parseNumber` (frac/exp dispatch) on a delimiter. -/
theorem parseExpPart_delim (r : List Char) (hd : delimOk r) :
    parseExpPart r = (Option.none, r) := by
  cases r with
  | nil => rfl
  | cons c2 t2 =>
    rcases hd with h | h | h <;> subst h <;> rfl

theorem signSplit_nosign (c : Char) (x : List Char) (h : c ≠ '-') :
    signSplit (c :: x) = (false, c :: x) := by
  simp [signSplit, h]

theorem parseFracExp_delim (neg : Bool) (ip : Nat) (rest : List Char) (hd : delimOk rest) :
    parseFracExp neg ip rest = some (.int (if neg then -(ip : Int) else (ip : Int)), rest) := by
  cases rest with
  | nil => rfl
  | cons c2 t2 => rcases hd with h | h | h <;> subst h <;> rfl

theorem parseNumBody_nat (neg : Bool) (a : Nat) (rest : List Char) (hd : delimOk rest) :
    parseNumBody neg (natDigits a ++ rest) =
      some (.int (if neg then -(a : Int) else (a : Int)), rest) := by
  obtain ⟨c, t, hct⟩ : ∃ c t, natDigits a = c :: t := by
    cases hnd : natDigits a with
    | nil => exact absurd hnd (natDigits_ne_nil a)
    | cons c t => exact ⟨c, t, rfl⟩
  have htk := takeWhile_all_append isDigitC (natDigits a) rest (natDigits_all_digit a)
    (delimOk_not_digit rest hd)
  have hdv : digitsVal (c :: t) = a := by rw [← hct]; exact digitsVal_natDigits a
  have hlz := natDigits_no_leading_zero a c t hct
  rw [hct] at htk
  simp only [List.cons_append] at htk
  rw [hct]
  unfold parseNumBody
  simp only [List.cons_append, htk.1, htk.2, List.isEmpty_cons, Bool.false_eq_true,
    if_false, hlz, hdv]
  rw [parseFracExp_delim neg a rest hd]

theorem parseNumber_int (n : Int) (rest : List Char) (hd : delimOk rest) :
    parseNumber (intDigits n ++ rest) = some (.int n, rest) := by
  by_cases hn : n < 0
  · have h1 : intDigits n = '-' :: natDigits n.natAbs := by
      simp [intDigits, hn]
    rw [h1]
    simp only [List.cons_append]
    unfold parseNumber
    simp only [signSplit]
    rw [parseNumBody_nat true n.natAbs rest hd]
    have hna : -(n.natAbs : Int) = n := by omega
    simp only [if_true, hna]
  · have h1 : intDigits n = natDigits n.natAbs := by
      simp [intDigits, hn]
    obtain ⟨c, t, hct⟩ : ∃ c t, natDigits n.natAbs = c :: t := by
      cases hnd : natDigits n.natAbs with
      | nil => exact absurd hnd (natDigits_ne_nil n.natAbs)
      | cons c t => exact ⟨c, t, rfl⟩
    have hcd : isDigitC c = true := natDigits_all_digit n.natAbs c (by rw [hct]; simp)
    have hcm : c ≠ '-' := isDigitC_ne_of c '-' hcd rfl
    rw [h1, hct]
    unfold parseNumber
    simp only [List.cons_append, signSplit_nosign c (t ++ rest) hcm]
    rw [show c :: (t ++ rest) = (c :: t) ++ rest from rfl, ← hct]
    rw [parseNumBody_nat false n.natAbs rest hd]
    have hna : (n.natAbs : Int) = n := by omega
    simp only [Bool.false_eq_true, if_false, hna]

theorem parseFracExp_frac (neg : Bool) (ip : Nat) (fs rest : List Char)
    (hfs : fs ≠ []) (hdig : ∀ c ∈ fs, isDigitC c = true) (hd : delimOk rest) :
    parseFracExp neg ip ('.' :: (fs ++ rest)) =
      some (mkFloat neg (ip * 10 ^ fs.length + digitsVal fs) fs.length, rest) := by
  have htk := takeWhile_all_append isDigitC fs rest hdig (delimOk_not_digit rest hd)
  have hfe : fs.isEmpty = false := by
    cases fs with
    | nil => exact absurd rfl hfs
    | cons c t => rfl
  have hlen : 1 ≤ fs.length := by
    cases fs with
    | nil => exact absurd rfl hfs
    | cons c t => simp
  simp only [parseFracExp, htk.1, htk.2, hfe, Bool.false_eq_true, if_false,
    parseExpPart_delim rest hd]
  rw [if_neg (show ¬((0 : Int) ≤ 0 - (fs.length : Int)) from by omega)]
  rw [show ((-((0 : Int) - (fs.length : Int))).toNat) = fs.length from by omega]

theorem parseNumBody_float (neg : Bool) (a e : Nat) (rest : List Char) (hd : delimOk rest)
    (hwf : e = 0 ∨ a % 10 ≠ 0) :
    parseNumBody neg (floatBodyL a e ++ rest) =
      some (.float (if neg && decide (a ≠ 0) then -(a : Int) else (a : Int)) e, rest) := by
  obtain ⟨c, t, hct⟩ : ∃ c t, natDigits (a / 10 ^ e) = c :: t := by
    cases hnd : natDigits (a / 10 ^ e) with
    | nil => exact absurd hnd (natDigits_ne_nil _)
    | cons c t => exact ⟨c, t, rfl⟩
  have hdv : digitsVal (c :: t) = a / 10 ^ e := by
    rw [← hct]; exact digitsVal_natDigits _
  have hlz := natDigits_no_leading_zero _ c t hct
  have hfrac_dig : ∀ x ∈ (if e = 0 then ['0']
      else padZeros e (natDigits (a % 10 ^ e))), isDigitC x = true := by
    by_cases he : e = 0
    · subst he
      intro x hx
      simp only [if_true] at hx
      simp only [List.mem_singleton] at hx
      subst hx
      rfl
    · intro x hx
      simp only [he, if_false] at hx
      exact padZeros_all_digit e _ (natDigits_all_digit _) x hx
  have hfrac_ne : (if e = 0 then ['0'] else padZeros e (natDigits (a % 10 ^ e))) ≠ [] := by
    by_cases he : e = 0
    · simp [he]
    · simp only [he, if_false]
      have hmod : a % 10 ^ e < 10 ^ e := Nat.mod_lt _ (by positivity)
      have hle := natDigits_length_le e (a % 10 ^ e) hmod (by omega)
      intro hcon
      have := padZeros_length e (natDigits (a % 10 ^ e)) hle
      rw [hcon] at this
      simp at this
      omega
  have htk := takeWhile_all_append isDigitC (natDigits (a / 10 ^ e))
    ('.' :: ((if e = 0 then ['0'] else padZeros e (natDigits (a % 10 ^ e))) ++ rest))
    (natDigits_all_digit _) (by simp [headFails, isDigitC])
  rw [hct] at htk
  simp only [List.cons_append] at htk
  unfold floatBodyL
  rw [hct]
  unfold parseNumBody
  simp only [List.cons_append, List.append_assoc]
  simp only [htk.1, htk.2, List.isEmpty_cons, Bool.false_eq_true, if_false, hlz, hdv]
  rw [parseFracExp_frac neg (a / 10 ^ e) _ rest hfrac_ne hfrac_dig hd]
  by_cases he : e = 0
  · subst he
    simp only [pow_zero, Nat.div_one, if_true]
    have h1 : (['0'] : List Char).length = 1 := rfl
    have h0 : digitsVal ['0'] = 0 := rfl
    have hc0 : canonF (a * 10) 1 = (a, 0) := by
      show (if (a * 10) % 10 = 0 then canonF (a * 10 / 10) 0 else (a * 10, 1)) = (a, 0)
      rw [if_pos (Nat.mul_mod_left a 10)]
      rw [show a * 10 / 10 = a from by omega]
      rfl
    rw [h1, h0]
    simp only [Nat.add_zero, pow_one]
    unfold mkFloat
    rw [hc0]
  · have hmod10 : a % 10 ≠ 0 := hwf.resolve_left he
    have hmod : a % 10 ^ e < 10 ^ e := Nat.mod_lt _ (by positivity)
    have hle := natDigits_length_le e (a % 10 ^ e) hmod (by omega)
    have hplen := padZeros_length e (natDigits (a % 10 ^ e)) hle
    simp only [he, if_false]
    rw [hplen, digitsVal_padZeros, digitsVal_natDigits]
    have hmant : a / 10 ^ e * 10 ^ e + a % 10 ^ e = a := by
      rw [Nat.mul_comm]
      exact Nat.div_add_mod a (10 ^ e)
    rw [hmant]
    unfold mkFloat
    have hcanon : canonF a e = (a, e) := by
      cases e with
      | zero => exact absurd rfl he
      | succ e2 =>
        unfold canonF
        rw [if_neg hmod10]
    rw [hcanon]

theorem parseNumber_float (m : Int) (e : Nat) (rest : List Char) (hd : delimOk rest)
    (hwf : pyWf (.float m e) = true) :
    parseNumber (floatDigits m e ++ rest) = some (.float m e, rest) := by
  have hwf2 : e = 0 ∨ m.natAbs % 10 ≠ 0 := by
    simp only [pyWf, Bool.or_eq_true, Bool.and_eq_true, decide_eq_true_eq] at hwf
    rcases hwf with h | ⟨_, h⟩
    · exact Or.inl h
    · exact Or.inr h
  by_cases hm : m < 0
  · have h1 : floatDigits m e = '-' :: floatBodyL m.natAbs e := by
      simp [floatDigits, hm]
    rw [h1]
    simp only [List.cons_append]
    unfold parseNumber
    simp only [signSplit]
    rw [parseNumBody_float true m.natAbs e rest hd hwf2]
    have hne : m.natAbs ≠ 0 := by omega
    have hna : -(m.natAbs : Int) = m := by omega
    rw [if_pos (show (true && decide (m.natAbs ≠ 0)) = true from by simp [hne]), hna]
  · have h1 : floatDigits m e = floatBodyL m.natAbs e := by
      simp [floatDigits, hm]
    obtain ⟨c, t, hnd⟩ : ∃ c t, natDigits (m.natAbs / 10 ^ e) = c :: t := by
      cases hnd : natDigits (m.natAbs / 10 ^ e) with
      | nil => exact absurd hnd (natDigits_ne_nil _)
      | cons c t => exact ⟨c, t, rfl⟩
    have hct : floatBodyL m.natAbs e = c :: (t ++ '.' ::
        (if e = 0 then ['0'] else padZeros e (natDigits (m.natAbs % 10 ^ e)))) := by
      unfold floatBodyL
      rw [hnd]
      simp
    have hcd : isDigitC c = true := natDigits_all_digit _ c (by rw [hnd]; simp)
    have hcm : c ≠ '-' := isDigitC_ne_of c '-' hcd rfl
    rw [h1, hct]
    simp only [List.cons_append]
    unfold parseNumber
    rw [signSplit_nosign c ((t ++ '.' ::
      (if e = 0 then ['0'] else padZeros e (natDigits (m.natAbs % 10 ^ e)))) ++ rest) hcm]
    rw [show c :: ((t ++ '.' ::
        (if e = 0 then ['0'] else padZeros e (natDigits (m.natAbs % 10 ^ e)))) ++ rest) =
      (c :: (t ++ '.' ::
        (if e = 0 then ['0'] else padZeros e (natDigits (m.natAbs % 10 ^ e))))) ++ rest from rfl]
    rw [← hct]
    rw [parseNumBody_float false m.natAbs e rest hd hwf2]
    have hna : (m.natAbs : Int) = m := by omega
    simp only [Bool.false_and, Bool.false_eq_true, if_false, hna]

/-- The double-quoted repr body of a string (Python repr in `"` mode). -/
def dBody (l : List Char) : List Char := l.flatMap (escChar '"')

theorem consFst_inv (ch : Char) (x : Option (List Char × List Char)) (t r' : List Char)
    (h : consFst ch x = some (t, r')) :
    ∃ t2, x = some (t2, r') ∧ t = ch :: t2 := by
  cases x with
  | none => exact absurd h (by simp [consFst])
  | some p =>
    obtain ⟨a, b⟩ := p
    simp only [consFst, Option.some.injEq, Prod.mk.injEq] at h
    exact ⟨a, by rw [h.2], h.1.symm⟩

set_option maxHeartbeats 1000000 in
theorem parseStrBody_dBody (l : List Char) :
    ∀ rest t r', parseStrBody (dBody l ++ '"' :: rest) = some (t, r') → t = l ∧ r' = rest := by
  induction l with
  | nil =>
    intro rest t r' h
    rw [show dBody ([] : List Char) ++ '"' :: rest = '"' :: rest from rfl] at h
    rw [show parseStrBody ('"' :: rest) = some ([], rest) from rfl] at h
    have h2 := Option.some.inj h
    exact ⟨(congrArg Prod.fst h2).symm, (congrArg Prod.snd h2).symm⟩
  | cons c l2 ih =>
    intro rest t r' h
    rw [show dBody (c :: l2) = escChar '"' c ++ dBody l2 from rfl] at h
    by_cases h1 : c = '\\'
    · subst h1
      rw [show escChar '"' '\\' ++ dBody l2 ++ '"' :: rest =
        '\\' :: '\\' :: (dBody l2 ++ '"' :: rest) from rfl] at h
      rw [show parseStrBody ('\\' :: '\\' :: (dBody l2 ++ '"' :: rest)) =
        consFst '\\' (parseStrBody (dBody l2 ++ '"' :: rest)) from rfl] at h
      obtain ⟨t2, hin, ht⟩ := consFst_inv _ _ _ _ h
      obtain ⟨hl, hr⟩ := ih rest t2 r' hin
      exact ⟨by rw [ht, hl], hr⟩
    by_cases h2 : c = '"'
    · subst h2
      rw [show escChar '"' '"' ++ dBody l2 ++ '"' :: rest =
        '\\' :: '"' :: (dBody l2 ++ '"' :: rest) from rfl] at h
      rw [show parseStrBody ('\\' :: '"' :: (dBody l2 ++ '"' :: rest)) =
        consFst '"' (parseStrBody (dBody l2 ++ '"' :: rest)) from rfl] at h
      obtain ⟨t2, hin, ht⟩ := consFst_inv _ _ _ _ h
      obtain ⟨hl, hr⟩ := ih rest t2 r' hin
      exact ⟨by rw [ht, hl], hr⟩
    by_cases h3 : c = '\n'
    · subst h3
      rw [show escChar '"' '\n' ++ dBody l2 ++ '"' :: rest =
        '\\' :: 'n' :: (dBody l2 ++ '"' :: rest) from rfl] at h
      rw [show parseStrBody ('\\' :: 'n' :: (dBody l2 ++ '"' :: rest)) =
        consFst '\n' (parseStrBody (dBody l2 ++ '"' :: rest)) from rfl] at h
      obtain ⟨t2, hin, ht⟩ := consFst_inv _ _ _ _ h
      obtain ⟨hl, hr⟩ := ih rest t2 r' hin
      exact ⟨by rw [ht, hl], hr⟩
    by_cases h4 : c = '\r'
    · subst h4
      rw [show escChar '"' '\r' ++ dBody l2 ++ '"' :: rest =
        '\\' :: 'r' :: (dBody l2 ++ '"' :: rest) from rfl] at h
      rw [show parseStrBody ('\\' :: 'r' :: (dBody l2 ++ '"' :: rest)) =
        consFst '\r' (parseStrBody (dBody l2 ++ '"' :: rest)) from rfl] at h
      obtain ⟨t2, hin, ht⟩ := consFst_inv _ _ _ _ h
      obtain ⟨hl, hr⟩ := ih rest t2 r' hin
      exact ⟨by rw [ht, hl], hr⟩
    by_cases h5 : c = '\t'
    · subst h5
      rw [show escChar '"' '\t' ++ dBody l2 ++ '"' :: rest =
        '\\' :: 't' :: (dBody l2 ++ '"' :: rest) from rfl] at h
      rw [show parseStrBody ('\\' :: 't' :: (dBody l2 ++ '"' :: rest)) =
        consFst '\t' (parseStrBody (dBody l2 ++ '"' :: rest)) from rfl] at h
      obtain ⟨t2, hin, ht⟩ := consFst_inv _ _ _ _ h
      obtain ⟨hl, hr⟩ := ih rest t2 r' hin
      exact ⟨by rw [ht, hl], hr⟩
    by_cases h6 : pyPrintable c = true
    · rw [show escChar '"' c = [c] from by simp [escChar, h1, h2, h3, h4, h5, h6]] at h
      have hge : ¬(c.toNat < 32) := by
        simp only [pyPrintable, Bool.and_eq_true, decide_eq_true_eq] at h6
        omega
      simp only [List.cons_append, List.nil_append, parseStrBody, h2, h1, hge, if_false] at h
      obtain ⟨t2, hin, ht⟩ := consFst_inv _ _ _ _ h
      obtain ⟨hl, hr⟩ := ih rest t2 r' hin
      exact ⟨by rw [ht, hl], hr⟩
    · have hesc : escChar '"' c = '\\' :: 'x' :: hex2 c.toNat := by
        have hlt : c.toNat < 256 := by
          simp only [pyPrintable, Bool.and_eq_true, decide_eq_true_eq] at h6
          rcases Nat.lt_or_ge c.toNat 32 with hx | hx
          · omega
          · have h7 : c.toNat = 127 := by
              by_contra h8
              exact h6 ⟨hx, by simpa using h8⟩
            omega
        simp [escChar, h1, h2, h3, h4, h5, h6, hlt]
      rw [hesc] at h
      rw [show ('\\' :: 'x' :: hex2 c.toNat) ++ dBody l2 ++ '"' :: rest =
        '\\' :: 'x' :: (hex2 c.toNat ++ (dBody l2 ++ '"' :: rest)) from by simp] at h
      rw [show parseStrBody ('\\' :: 'x' :: (hex2 c.toNat ++ (dBody l2 ++ '"' :: rest))) =
        Option.none from by
          rw [show hex2 c.toNat = [hexChar (c.toNat / 16 % 16), hexChar (c.toNat % 16)] from rfl]
          rfl] at h
      cases h

theorem natDigits_head_digit (a : Nat) :
    ∃ c t, natDigits a = c :: t ∧ isDigitC c = true := by
  cases hnd : natDigits a with
  | nil => exact absurd hnd (natDigits_ne_nil a)
  | cons c t => exact ⟨c, t, rfl, natDigits_all_digit a c (by rw [hnd]; simp)⟩

theorem pyReprL_head (v : PyVal) :
    ∃ c t, pyReprL v = c :: t ∧ wsChar c = false ∧ c ≠ ']' ∧ c ≠ '\x7d' := by
  cases v with
  | none => exact ⟨'N', "one".data, rfl, rfl, by decide, by decide⟩
  | bool b =>
    cases b with
    | true => exact ⟨'T', "rue".data, rfl, rfl, by decide, by decide⟩
    | false => exact ⟨'F', "alse".data, rfl, rfl, by decide, by decide⟩
  | int n =>
    by_cases hn : n < 0
    · refine ⟨'-', natDigits n.natAbs, ?_, rfl, by decide, by decide⟩
      simp [pyReprL, intDigits, hn]
    · obtain ⟨c, t, hct, hcd⟩ := natDigits_head_digit n.natAbs
      refine ⟨c, t, ?_, isDigitC_not_ws c hcd, isDigitC_ne_of c ']' hcd rfl,
        isDigitC_ne_of c '\x7d' hcd rfl⟩
      simp [pyReprL, intDigits, hn, hct]
  | float m e =>
    by_cases hm : m < 0
    · refine ⟨'-', floatBodyL m.natAbs e, ?_, rfl, by decide, by decide⟩
      simp [pyReprL, floatDigits, hm]
    · obtain ⟨c, t, hct, hcd⟩ := natDigits_head_digit (m.natAbs / 10 ^ e)
      refine ⟨c, t ++ '.' ::
        (if e = 0 then ['0'] else padZeros e (natDigits (m.natAbs % 10 ^ e))), ?_,
        isDigitC_not_ws c hcd, isDigitC_ne_of c ']' hcd rfl, isDigitC_ne_of c '\x7d' hcd rfl⟩
      simp [pyReprL, floatDigits, hm, floatBodyL, hct]
  | str s =>
    refine ⟨strQuote s.data, s.data.flatMap (escChar (strQuote s.data)) ++ [strQuote s.data],
      rfl, ?_, ?_, ?_⟩ <;>
      (unfold strQuote; split) <;> decide
  | list xs => exact ⟨'[', pyReprItems xs ++ [']'], rfl, rfl, by decide, by decide⟩
  | dict kvs => exact ⟨'\x7b', pyReprMembers kvs ++ ['\x7d'], rfl, rfl, by decide, by decide⟩

theorem insertKV_fresh (acc : List (String × PyVal)) (k : String) (v : PyVal)
    (h : hasKey acc k = false) : insertKV acc k v = acc ++ [(k, v)] := by
  induction acc with
  | nil => rfl
  | cons p t ih =>
    obtain ⟨k2, v2⟩ := p
    simp only [hasKey, List.any_cons, Bool.or_eq_false_iff, beq_eq_false_iff_ne, ne_eq] at h
    have ht : hasKey t k = false := h.2
    simp only [insertKV, if_neg h.1, List.cons_append]
    rw [ih ht]

theorem delimOk_comma (x : List Char) : delimOk (',' :: x) := Or.inl rfl

theorem delimOk_rbrack (x : List Char) : delimOk (']' :: x) := Or.inr (Or.inl rfl)

theorem delimOk_rbrace (x : List Char) : delimOk ('\x7d' :: x) := Or.inr (Or.inr rfl)

theorem skipWs_cons_space (t : List Char) : skipWs (' ' :: t) = skipWs t := by
  simp [skipWs, List.dropWhile, wsChar]

theorem pyWfList_cons (x : PyVal) (t : List PyVal) (h : pyWfList (x :: t) = true) :
    pyWf x = true ∧ pyWfList t = true := by
  have h2 : (pyWf x && pyWfList t) = true := h
  simpa using h2

theorem pyWfKVs_cons (k : String) (v : PyVal) (t : List (String × PyVal))
    (h : pyWfKVs ((k, v) :: t) = true) : pyWf v = true ∧ pyWfKVs t = true := by
  have h2 : (pyWf v && pyWfKVs t) = true := h
  simpa using h2

theorem nodupKeysB_cons (k : String) (v : PyVal) (t : List (String × PyVal))
    (h : nodupKeysB ((k, v) :: t) = true) : hasKey t k = false ∧ nodupKeysB t = true := by
  have h2 : (!(hasKey t k) && nodupKeysB t) = true := h
  simpa using h2

theorem hasKey_append (a b : List (String × PyVal)) (key : String) :
    hasKey (a ++ b) key = (hasKey a key || hasKey b key) := by
  simp [hasKey, List.any_append]

theorem hasKey_false_mem (t : List (String × PyVal)) (key : String)
    (h : hasKey t key = false) : ∀ p ∈ t, p.1 ≠ key := by
  intro p hp
  simp only [hasKey, List.any_eq_false] at h
  have := h p hp
  simpa using this

theorem strQuote_not_ws (l : List Char) : wsChar (strQuote l) = false := by
  unfold strQuote
  split <;> rfl

theorem strQuote_ne_rbrace (l : List Char) : strQuote l ≠ '\x7d' := by
  unfold strQuote
  split <;> decide

theorem pyReprMembers_head (k : String) (v : PyVal) (t : List (String × PyVal)) :
    ∃ X, pyReprMembers ((k, v) :: t) = strQuote k.data :: X := by
  cases t with
  | nil =>
    refine ⟨k.data.flatMap (escChar (strQuote k.data)) ++ [strQuote k.data] ++
      ':' :: ' ' :: pyReprL v, ?_⟩
    simp [pyReprMembers, reprStrChars]
  | cons p t2 =>
    refine ⟨k.data.flatMap (escChar (strQuote k.data)) ++ [strQuote k.data] ++
      ':' :: ' ' :: pyReprL v ++ ',' :: ' ' :: pyReprMembers (p :: t2), ?_⟩
    simp [pyReprMembers, reprStrChars]

theorem pyReprItems_head (x : PyVal) (t : List PyVal) (c : Char) (tl : List Char)
    (hct : pyReprL x = c :: tl) :
    ∃ X, pyReprItems (x :: t) = c :: X := by
  cases t with
  | nil => exact ⟨tl, by simp [pyReprItems, hct]⟩
  | cons y t2 =>
    exact ⟨tl ++ ',' :: ' ' :: pyReprItems (y :: t2), by simp [pyReprItems, hct]⟩

set_option maxHeartbeats 2000000 in
/-- Soundness of the fuelled JSON parser on `repr` output: whenever the parser
succeeds on the printed form of a well-formed value (followed by a legal
delimiter), it returns exactly that value and consumes exactly the print. -/
theorem parse_repr_master : ∀ f : Nat,
    (∀ v rest w r', pyWf v = true → delimOk rest →
      parseValC f (pyReprL v ++ rest) = some (w, r') → w = v ∧ r' = rest) ∧
    (∀ wsl xs rest res r', (∀ c ∈ wsl, wsChar c = true) → xs ≠ [] → pyWfList xs = true →
      parseElems f (wsl ++ pyReprItems xs ++ ']' :: rest) = some (res, r') →
      res = xs ∧ r' = rest) ∧
    (∀ wsl kvs acc rest res r', (∀ c ∈ wsl, wsChar c = true) → kvs ≠ [] →
      nodupKeysB kvs = true → pyWfKVs kvs = true →
      (∀ p ∈ kvs, hasKey acc p.1 = false) →
      parseMembers f (wsl ++ pyReprMembers kvs ++ '\x7d' :: rest) acc = some (res, r') →
      res = PyVal.dict (acc ++ kvs) ∧ r' = rest) := by
  intro f
  induction f with
  | zero =>
    refine ⟨?_, ?_, ?_⟩
    · intro v rest w r' _ _ h
      exact absurd h (by simp [parseValC])
    · intro wsl xs rest res r' _ _ _ h
      exact absurd h (by simp [parseElems])
    · intro wsl kvs acc rest res r' _ _ _ _ _ h
      exact absurd h (by simp [parseMembers])
  | succ f ih =>
    obtain ⟨ihV, ihE, ihM⟩ := ih
    refine ⟨?_, ?_, ?_⟩
    · -- value soundness at fuel f + 1
      intro v rest w r' hwf hd h
      cases v with
      | none =>
        rw [show parseValC (f + 1) (pyReprL PyVal.none ++ rest) = Option.none from rfl] at h
        exact absurd h (by simp)
      | bool b =>
        cases b with
        | true =>
          rw [show parseValC (f + 1) (pyReprL (PyVal.bool true) ++ rest) =
            Option.none from rfl] at h
          exact absurd h (by simp)
        | false =>
          rw [show parseValC (f + 1) (pyReprL (PyVal.bool false) ++ rest) =
            Option.none from rfl] at h
          exact absurd h (by simp)
      | int n =>
        have hdisp : parseValC (f + 1) (pyReprL (PyVal.int n) ++ rest) =
            parseNumber (intDigits n ++ rest) := by
          by_cases hn : n < 0
          · rw [show pyReprL (PyVal.int n) = intDigits n from rfl,
              show intDigits n = '-' :: natDigits n.natAbs from by simp [intDigits, hn]]
            rfl
          · obtain ⟨c, t, hct, hcd⟩ := natDigits_head_digit n.natAbs
            have h1 : intDigits n = natDigits n.natAbs := by simp [intDigits, hn]
            rw [show pyReprL (PyVal.int n) = intDigits n from rfl, h1, hct]
            have e1 : c ≠ '\x7b' := isDigitC_ne_of c '\x7b' hcd rfl
            have e2 : c ≠ '[' := isDigitC_ne_of c '[' hcd rfl
            have e3 : c ≠ '"' := isDigitC_ne_of c '"' hcd rfl
            have e4 : c ≠ 't' := isDigitC_ne_of c 't' hcd rfl
            have e5 : c ≠ 'f' := isDigitC_ne_of c 'f' hcd rfl
            have e6 : c ≠ 'n' := isDigitC_ne_of c 'n' hcd rfl
            simp [parseValC, e1, e2, e3, e4, e5, e6, hcd]
        rw [hdisp, parseNumber_int n rest hd] at h
        have h2 := Option.some.inj h
        rw [Prod.mk.injEq] at h2
        exact ⟨h2.1.symm, h2.2.symm⟩
      | float m e =>
        have hdisp : parseValC (f + 1) (pyReprL (PyVal.float m e) ++ rest) =
            parseNumber (floatDigits m e ++ rest) := by
          by_cases hm : m < 0
          · rw [show pyReprL (PyVal.float m e) = floatDigits m e from rfl,
              show floatDigits m e = '-' :: floatBodyL m.natAbs e from by
                simp [floatDigits, hm]]
            rfl
          · obtain ⟨c, t, hnd2, hcd⟩ := natDigits_head_digit (m.natAbs / 10 ^ e)
            have hct : floatBodyL m.natAbs e = c :: (t ++ '.' ::
                (if e = 0 then ['0'] else padZeros e (natDigits (m.natAbs % 10 ^ e)))) := by
              unfold floatBodyL
              rw [hnd2]
              simp
            have h1 : floatDigits m e = floatBodyL m.natAbs e := by simp [floatDigits, hm]
            rw [show pyReprL (PyVal.float m e) = floatDigits m e from rfl, h1, hct]
            have e1 : c ≠ '\x7b' := isDigitC_ne_of c '\x7b' hcd rfl
            have e2 : c ≠ '[' := isDigitC_ne_of c '[' hcd rfl
            have e3 : c ≠ '"' := isDigitC_ne_of c '"' hcd rfl
            have e4 : c ≠ 't' := isDigitC_ne_of c 't' hcd rfl
            have e5 : c ≠ 'f' := isDigitC_ne_of c 'f' hcd rfl
            have e6 : c ≠ 'n' := isDigitC_ne_of c 'n' hcd rfl
            simp [parseValC, e1, e2, e3, e4, e5, e6, hcd]
        rw [hdisp, parseNumber_float m e rest hd hwf] at h
        have h2 := Option.some.inj h
        rw [Prod.mk.injEq] at h2
        exact ⟨h2.1.symm, h2.2.symm⟩
      | str s =>
        by_cases hqc : (s.data.contains '\'' && !(s.data.contains '"')) = true
        · have hq : strQuote s.data = '"' := by unfold strQuote; rw [if_pos hqc]
          have hshape : pyReprL (PyVal.str s) ++ rest =
              '"' :: (dBody s.data ++ '"' :: rest) := by
            rw [show pyReprL (PyVal.str s) = reprStrChars s.data from rfl]
            simp [reprStrChars, hq, dBody]
          rw [hshape] at h
          cases hps : parseStrBody (dBody s.data ++ '"' :: rest) with
          | none =>
            have hval : parseValC (f + 1) ('"' :: (dBody s.data ++ '"' :: rest)) =
                Option.none := by
              simp [parseValC, hps]
            rw [hval] at h
            exact absurd h (by simp)
          | some pk =>
            obtain ⟨cs, r2⟩ := pk
            have hval : parseValC (f + 1) ('"' :: (dBody s.data ++ '"' :: rest)) =
                some (PyVal.str (String.mk cs), r2) := by
              simp [parseValC, hps]
            rw [hval] at h
            obtain ⟨hcs, hr2⟩ := parseStrBody_dBody s.data rest cs r2 hps
            subst hcs
            subst hr2
            have h2 := Option.some.inj h
            rw [Prod.mk.injEq] at h2
            exact ⟨h2.1.symm, h2.2.symm⟩
        · have hq : strQuote s.data = '\'' := by unfold strQuote; rw [if_neg hqc]
          have hshape : pyReprL (PyVal.str s) ++ rest =
              '\'' :: (s.data.flatMap (escChar '\'') ++ '\'' :: rest) := by
            rw [show pyReprL (PyVal.str s) = reprStrChars s.data from rfl]
            simp [reprStrChars, hq]
          rw [hshape] at h
          rw [show parseValC (f + 1)
            ('\'' :: (s.data.flatMap (escChar '\'') ++ '\'' :: rest)) =
            Option.none from rfl] at h
          exact absurd h (by simp)
      | list xs =>
        cases xs with
        | nil =>
          rw [show parseValC (f + 1) (pyReprL (PyVal.list []) ++ rest) =
            some (PyVal.list [], rest) from rfl] at h
          have h2 := Option.some.inj h
          rw [Prod.mk.injEq] at h2
          exact ⟨h2.1.symm, h2.2.symm⟩
        | cons x t =>
          obtain ⟨c, tl, hct, hwsc, hne1, _⟩ := pyReprL_head x
          obtain ⟨X, hX⟩ := pyReprItems_head x t c tl hct
          have hshape : pyReprL (PyVal.list (x :: t)) ++ rest =
              '[' :: (c :: (X ++ ']' :: rest)) := by
            rw [show pyReprL (PyVal.list (x :: t)) =
              '[' :: pyReprItems (x :: t) ++ [']'] from rfl, hX]
            simp
          rw [hshape] at h
          have hskip : skipWs (c :: (X ++ ']' :: rest)) = c :: (X ++ ']' :: rest) :=
            skipWs_head_nonws _ hwsc
          cases hpe : parseElems f (c :: (X ++ ']' :: rest)) with
          | none =>
            have hval : parseValC (f + 1) ('[' :: (c :: (X ++ ']' :: rest))) =
                Option.none := by
              simp [parseValC, hskip, hne1, hpe]
            rw [hval] at h
            exact absurd h (by simp)
          | some pv =>
            obtain ⟨vs, r3⟩ := pv
            have hval : parseValC (f + 1) ('[' :: (c :: (X ++ ']' :: rest))) =
                some (PyVal.list vs, r3) := by
              simp [parseValC, hskip, hne1, hpe]
            rw [hval] at h
            have hpe2 : parseElems f ([] ++ pyReprItems (x :: t) ++ ']' :: rest) =
                some (vs, r3) := by
              rw [List.nil_append, hX]
              simpa using hpe
            have hE := ihE [] (x :: t) rest vs r3 (by intro c2 hc2; cases hc2)
              (by simp) hwf hpe2
            have h2 := Option.some.inj h
            rw [Prod.mk.injEq] at h2
            exact ⟨h2.1.symm.trans (congrArg PyVal.list hE.1), h2.2.symm.trans hE.2⟩
      | dict kvs =>
        cases kvs with
        | nil =>
          rw [show parseValC (f + 1) (pyReprL (PyVal.dict []) ++ rest) =
            some (PyVal.dict [], rest) from rfl] at h
          have h2 := Option.some.inj h
          rw [Prod.mk.injEq] at h2
          exact ⟨h2.1.symm, h2.2.symm⟩
        | cons p t =>
          obtain ⟨k, v⟩ := p
          obtain ⟨X, hX⟩ := pyReprMembers_head k v t
          have hshape : pyReprL (PyVal.dict ((k, v) :: t)) ++ rest =
              '\x7b' :: (strQuote k.data :: (X ++ '\x7d' :: rest)) := by
            rw [show pyReprL (PyVal.dict ((k, v) :: t)) =
              '\x7b' :: pyReprMembers ((k, v) :: t) ++ ['\x7d'] from rfl, hX]
            simp
          rw [hshape] at h
          have hskip : skipWs (strQuote k.data :: (X ++ '\x7d' :: rest)) =
              strQuote k.data :: (X ++ '\x7d' :: rest) :=
            skipWs_head_nonws _ (strQuote_not_ws k.data)
          cases hpm : parseMembers f (strQuote k.data :: (X ++ '\x7d' :: rest)) [] with
          | none =>
            have hval : parseValC (f + 1)
                ('\x7b' :: (strQuote k.data :: (X ++ '\x7d' :: rest))) = Option.none := by
              simp [parseValC, hskip, strQuote_ne_rbrace k.data, hpm]
            rw [hval] at h
            exact absurd h (by simp)
          | some p2 =>
            obtain ⟨res0, r3⟩ := p2
            have hval : parseValC (f + 1)
                ('\x7b' :: (strQuote k.data :: (X ++ '\x7d' :: rest))) =
                some (res0, r3) := by
              simp [parseValC, hskip, strQuote_ne_rbrace k.data, hpm]
            rw [hval] at h
            have hsplit : nodupKeysB ((k, v) :: t) = true ∧ pyWfKVs ((k, v) :: t) = true := by
              have h3 : (nodupKeysB ((k, v) :: t) && pyWfKVs ((k, v) :: t)) = true := hwf
              simpa using h3
            have hpm2 : parseMembers f
                ([] ++ pyReprMembers ((k, v) :: t) ++ '\x7d' :: rest) [] =
                some (res0, r3) := by
              rw [List.nil_append, hX]
              simpa using hpm
            have hM := ihM [] ((k, v) :: t) [] rest res0 r3 (by intro c2 hc2; cases hc2)
              (by simp) hsplit.1 hsplit.2 (by intro p2 hp2; rfl) hpm2
            have h2 := Option.some.inj h
            rw [Prod.mk.injEq] at h2
            refine ⟨h2.1.symm.trans ?_, h2.2.symm.trans hM.2⟩
            rw [hM.1, List.nil_append]
    · -- element-list soundness at fuel f + 1
      intro wsl xs rest res r' hws hne hwfl hp
      cases xs with
      | nil => exact absurd rfl hne
      | cons x t =>
        obtain ⟨hwx, hwt⟩ := pyWfList_cons x t hwfl
        obtain ⟨c, tl, hct, hwsc, _, _⟩ := pyReprL_head x
        cases t with
        | nil =>
          have hin : wsl ++ pyReprItems [x] ++ ']' :: rest =
              wsl ++ (pyReprL x ++ ']' :: rest) := by
            rw [show pyReprItems [x] = pyReprL x from rfl]
            simp
          rw [hin] at hp
          have hskip : skipWs (wsl ++ (pyReprL x ++ ']' :: rest)) =
              pyReprL x ++ ']' :: rest := by
            rw [skipWs_ws_append wsl _ hws]
            exact skipWs_head_nonws _ (by rw [hct]; exact hwsc)
          cases hv : parseValC f (pyReprL x ++ ']' :: rest) with
          | none =>
            have hval : parseElems (f + 1) (wsl ++ (pyReprL x ++ ']' :: rest)) =
                Option.none := by
              simp [parseElems, hskip, hv]
            rw [hval] at hp
            exact absurd hp (by simp)
          | some pv =>
            obtain ⟨v0, r0⟩ := pv
            obtain ⟨hv0, hr0⟩ := ihV x (']' :: rest) v0 r0 hwx (delimOk_rbrack rest) hv
            rw [hv0, hr0] at hv
            have hskipR : skipWs (']' :: rest) = ']' :: rest := skipWs_head_nonws _ rfl
            have hval : parseElems (f + 1) (wsl ++ (pyReprL x ++ ']' :: rest)) =
                some ([x], rest) := by
              simp [parseElems, hskip, hv, hskipR]
            rw [hval] at hp
            have h2 := Option.some.inj hp
            rw [Prod.mk.injEq] at h2
            exact ⟨h2.1.symm, h2.2.symm⟩
        | cons y t2 =>
          have hin : wsl ++ pyReprItems (x :: y :: t2) ++ ']' :: rest =
              wsl ++ (pyReprL x ++ ',' :: ' ' :: (pyReprItems (y :: t2) ++ ']' :: rest)) := by
            rw [show pyReprItems (x :: y :: t2) =
              pyReprL x ++ ',' :: ' ' :: pyReprItems (y :: t2) from rfl]
            simp
          rw [hin] at hp
          have hskip : skipWs (wsl ++
              (pyReprL x ++ ',' :: ' ' :: (pyReprItems (y :: t2) ++ ']' :: rest))) =
              pyReprL x ++ ',' :: ' ' :: (pyReprItems (y :: t2) ++ ']' :: rest) := by
            rw [skipWs_ws_append wsl _ hws]
            exact skipWs_head_nonws _ (by rw [hct]; exact hwsc)
          cases hv : parseValC f
              (pyReprL x ++ ',' :: ' ' :: (pyReprItems (y :: t2) ++ ']' :: rest)) with
          | none =>
            have hval : parseElems (f + 1) (wsl ++
                (pyReprL x ++ ',' :: ' ' :: (pyReprItems (y :: t2) ++ ']' :: rest))) =
                Option.none := by
              simp [parseElems, hskip, hv]
            rw [hval] at hp
            exact absurd hp (by simp)
          | some pv =>
            obtain ⟨v0, r0⟩ := pv
            obtain ⟨hv0, hr0⟩ := ihV x
              (',' :: ' ' :: (pyReprItems (y :: t2) ++ ']' :: rest)) v0 r0 hwx
              (delimOk_comma _) hv
            rw [hv0, hr0] at hv
            have hskipC : skipWs (',' :: ' ' :: (pyReprItems (y :: t2) ++ ']' :: rest)) =
                ',' :: ' ' :: (pyReprItems (y :: t2) ++ ']' :: rest) :=
              skipWs_head_nonws _ rfl
            cases hpe2 : parseElems f (' ' :: (pyReprItems (y :: t2) ++ ']' :: rest)) with
            | none =>
              have hval : parseElems (f + 1) (wsl ++
                  (pyReprL x ++ ',' :: ' ' :: (pyReprItems (y :: t2) ++ ']' :: rest))) =
                  Option.none := by
                simp [parseElems, hskip, hv, hskipC, hpe2]
              rw [hval] at hp
              exact absurd hp (by simp)
            | some pv2 =>
              obtain ⟨vs2, r4⟩ := pv2
              have hE2 := ihE [' '] (y :: t2) rest vs2 r4
                (by intro c2 hc2; rw [List.mem_singleton.mp hc2]; rfl)
                (by simp) hwt (by simpa using hpe2)
              have hval : parseElems (f + 1) (wsl ++
                  (pyReprL x ++ ',' :: ' ' :: (pyReprItems (y :: t2) ++ ']' :: rest))) =
                  some (x :: vs2, r4) := by
                simp [parseElems, hskip, hv, hskipC, hpe2]
              rw [hval] at hp
              have h2 := Option.some.inj hp
              rw [Prod.mk.injEq] at h2
              exact ⟨h2.1.symm.trans (by rw [hE2.1]), h2.2.symm.trans hE2.2⟩
    · -- member-list soundness at fuel f + 1
      intro wsl kvs acc rest res r' hws hne hnd hwfk hfresh hp
      cases kvs with
      | nil => exact absurd rfl hne
      | cons p t =>
        obtain ⟨k, v⟩ := p
        obtain ⟨hwv, hwt⟩ := pyWfKVs_cons k v t hwfk
        obtain ⟨hfkt, hndt⟩ := nodupKeysB_cons k v t hnd
        by_cases hqc : (k.data.contains '\'' && !(k.data.contains '"')) = true
        · -- double-quoted key: the parser can read it
          have hq : strQuote k.data = '"' := by unfold strQuote; rw [if_pos hqc]
          have hfk : hasKey acc k = false := hfresh (k, v) (by simp)
          have hins : insertKV acc (String.mk k.data) v = acc ++ [(k, v)] :=
            insertKV_fresh acc k v hfk
          cases t with
          | nil =>
            have hin : wsl ++ pyReprMembers [(k, v)] ++ '\x7d' :: rest =
                wsl ++ ('"' :: (dBody k.data ++ '"' ::
                  (':' :: ' ' :: (pyReprL v ++ '\x7d' :: rest)))) := by
              rw [show pyReprMembers [(k, v)] =
                reprStrChars k.data ++ ':' :: ' ' :: pyReprL v from rfl]
              simp [reprStrChars, hq, dBody]
            rw [hin] at hp
            have hskip : skipWs (wsl ++ ('"' :: (dBody k.data ++ '"' ::
                (':' :: ' ' :: (pyReprL v ++ '\x7d' :: rest))))) =
                '"' :: (dBody k.data ++ '"' ::
                  (':' :: ' ' :: (pyReprL v ++ '\x7d' :: rest))) := by
              rw [skipWs_ws_append wsl _ hws]
              exact skipWs_head_nonws _ rfl
            cases hps : parseStrBody (dBody k.data ++ '"' ::
                (':' :: ' ' :: (pyReprL v ++ '\x7d' :: rest))) with
            | none =>
              have hval : parseMembers (f + 1) (wsl ++ ('"' :: (dBody k.data ++ '"' ::
                  (':' :: ' ' :: (pyReprL v ++ '\x7d' :: rest))))) acc = Option.none := by
                simp [parseMembers, hskip, hps]
              rw [hval] at hp
              exact absurd hp (by simp)
            | some pk =>
              obtain ⟨kcs, r2⟩ := pk
              obtain ⟨hkcs, hr2⟩ := parseStrBody_dBody k.data
                (':' :: ' ' :: (pyReprL v ++ '\x7d' :: rest)) kcs r2 hps
              subst hkcs
              subst hr2
              have hskipCol : skipWs (':' :: ' ' :: (pyReprL v ++ '\x7d' :: rest)) =
                  ':' :: ' ' :: (pyReprL v ++ '\x7d' :: rest) :=
                skipWs_head_nonws _ rfl
              have hskipV : skipWs (' ' :: (pyReprL v ++ '\x7d' :: rest)) =
                  pyReprL v ++ '\x7d' :: rest := by
                rw [skipWs_cons_space]
                obtain ⟨cv, tv, hctv, hwscv, _, _⟩ := pyReprL_head v
                exact skipWs_head_nonws _ (by rw [hctv]; exact hwscv)
              cases hv : parseValC f (pyReprL v ++ '\x7d' :: rest) with
              | none =>
                have hval : parseMembers (f + 1) (wsl ++ ('"' :: (dBody k.data ++ '"' ::
                    (':' :: ' ' :: (pyReprL v ++ '\x7d' :: rest))))) acc = Option.none := by
                  simp [parseMembers, hskip, hps, hskipCol, hskipV, hv]
                rw [hval] at hp
                exact absurd hp (by simp)
              | some pv =>
                obtain ⟨v0, r4⟩ := pv
                obtain ⟨hv0, hr4⟩ := ihV v ('\x7d' :: rest) v0 r4 hwv
                  (delimOk_rbrace rest) hv
                rw [hv0, hr4] at hv
                have hskipB : skipWs ('\x7d' :: rest) = '\x7d' :: rest :=
                  skipWs_head_nonws _ rfl
                have hval : parseMembers (f + 1) (wsl ++ ('"' :: (dBody k.data ++ '"' ::
                    (':' :: ' ' :: (pyReprL v ++ '\x7d' :: rest))))) acc =
                    some (PyVal.dict (insertKV acc (String.mk k.data) v), rest) := by
                  simp [parseMembers, hskip, hps, hskipCol, hskipV, hv, hskipB]
                rw [hval] at hp
                have h2 := Option.some.inj hp
                rw [Prod.mk.injEq] at h2
                refine ⟨h2.1.symm.trans ?_, h2.2.symm⟩
                rw [hins]
          | cons q t2 =>
            have hin : wsl ++ pyReprMembers ((k, v) :: q :: t2) ++ '\x7d' :: rest =
                wsl ++ ('"' :: (dBody k.data ++ '"' :: (':' :: ' ' :: (pyReprL v ++
                  ',' :: ' ' :: (pyReprMembers (q :: t2) ++ '\x7d' :: rest))))) := by
              rw [show pyReprMembers ((k, v) :: q :: t2) =
                reprStrChars k.data ++ ':' :: ' ' :: pyReprL v ++
                  ',' :: ' ' :: pyReprMembers (q :: t2) from rfl]
              simp [reprStrChars, hq, dBody]
            rw [hin] at hp
            have hskip : skipWs (wsl ++ ('"' :: (dBody k.data ++ '"' ::
                (':' :: ' ' :: (pyReprL v ++
                  ',' :: ' ' :: (pyReprMembers (q :: t2) ++ '\x7d' :: rest)))))) =
                '"' :: (dBody k.data ++ '"' :: (':' :: ' ' :: (pyReprL v ++
                  ',' :: ' ' :: (pyReprMembers (q :: t2) ++ '\x7d' :: rest)))) := by
              rw [skipWs_ws_append wsl _ hws]
              exact skipWs_head_nonws _ rfl
            cases hps : parseStrBody (dBody k.data ++ '"' ::
                (':' :: ' ' :: (pyReprL v ++
                  ',' :: ' ' :: (pyReprMembers (q :: t2) ++ '\x7d' :: rest)))) with
            | none =>
              have hval : parseMembers (f + 1) (wsl ++ ('"' :: (dBody k.data ++ '"' ::
                  (':' :: ' ' :: (pyReprL v ++
                    ',' :: ' ' :: (pyReprMembers (q :: t2) ++ '\x7d' :: rest)))))) acc =
                  Option.none := by
                simp [parseMembers, hskip, hps]
              rw [hval] at hp
              exact absurd hp (by simp)
            | some pk =>
              obtain ⟨kcs, r2⟩ := pk
              obtain ⟨hkcs, hr2⟩ := parseStrBody_dBody k.data
                (':' :: ' ' :: (pyReprL v ++
                  ',' :: ' ' :: (pyReprMembers (q :: t2) ++ '\x7d' :: rest))) kcs r2 hps
              subst hkcs
              subst hr2
              have hskipCol : skipWs (':' :: ' ' :: (pyReprL v ++
                  ',' :: ' ' :: (pyReprMembers (q :: t2) ++ '\x7d' :: rest))) =
                  ':' :: ' ' :: (pyReprL v ++
                    ',' :: ' ' :: (pyReprMembers (q :: t2) ++ '\x7d' :: rest)) :=
                skipWs_head_nonws _ rfl
              have hskipV : skipWs (' ' :: (pyReprL v ++
                  ',' :: ' ' :: (pyReprMembers (q :: t2) ++ '\x7d' :: rest))) =
                  pyReprL v ++ ',' :: ' ' :: (pyReprMembers (q :: t2) ++ '\x7d' :: rest) := by
                rw [skipWs_cons_space]
                obtain ⟨cv, tv, hctv, hwscv, _, _⟩ := pyReprL_head v
                exact skipWs_head_nonws _ (by rw [hctv]; exact hwscv)
              cases hv : parseValC f (pyReprL v ++
                  ',' :: ' ' :: (pyReprMembers (q :: t2) ++ '\x7d' :: rest)) with
              | none =>
                have hval : parseMembers (f + 1) (wsl ++ ('"' :: (dBody k.data ++ '"' ::
                    (':' :: ' ' :: (pyReprL v ++
                      ',' :: ' ' :: (pyReprMembers (q :: t2) ++ '\x7d' :: rest)))))) acc =
                    Option.none := by
                  simp [parseMembers, hskip, hps, hskipCol, hskipV, hv]
                rw [hval] at hp
                exact absurd hp (by simp)
              | some pv =>
                obtain ⟨v0, r4⟩ := pv
                obtain ⟨hv0, hr4⟩ := ihV v
                  (',' :: ' ' :: (pyReprMembers (q :: t2) ++ '\x7d' :: rest)) v0 r4 hwv
                  (delimOk_comma _) hv
                rw [hv0, hr4] at hv
                have hskipC2 : skipWs (',' :: ' ' ::
                    (pyReprMembers (q :: t2) ++ '\x7d' :: rest)) =
                    ',' :: ' ' :: (pyReprMembers (q :: t2) ++ '\x7d' :: rest) :=
                  skipWs_head_nonws _ rfl
                have hfresh2 : ∀ p2 ∈ q :: t2, hasKey (acc ++ [(k, v)]) p2.1 = false := by
                  intro p2 hp2
                  rw [hasKey_append]
                  have hf1 : hasKey acc p2.1 = false :=
                    hfresh p2 (List.mem_cons_of_mem _ hp2)
                  have hne2 : p2.1 ≠ k := hasKey_false_mem (q :: t2) k hfkt p2 hp2
                  have hf2 : hasKey [(k, v)] p2.1 = false := by
                    simp [hasKey, Ne.symm hne2]
                  rw [hf1, hf2]
                  rfl
                cases hpm2 : parseMembers f (' ' ::
                    (pyReprMembers (q :: t2) ++ '\x7d' :: rest)) (acc ++ [(k, v)]) with
                | none =>
                  have hval : parseMembers (f + 1) (wsl ++ ('"' :: (dBody k.data ++ '"' ::
                      (':' :: ' ' :: (pyReprL v ++
                        ',' :: ' ' :: (pyReprMembers (q :: t2) ++ '\x7d' :: rest)))))) acc =
                      Option.none := by
                    simp [parseMembers, hskip, hps, hskipCol, hskipV, hv, hskipC2, hins, hpm2]
                  rw [hval] at hp
                  exact absurd hp (by simp)
                | some pm =>
                  obtain ⟨res2, r6⟩ := pm
                  have hM2 := ihM [' '] (q :: t2) (acc ++ [(k, v)]) rest res2 r6
                    (by intro c2 hc2; rw [List.mem_singleton.mp hc2]; rfl)
                    (by simp) hndt hwt hfresh2 (by simpa using hpm2)
                  have hval : parseMembers (f + 1) (wsl ++ ('"' :: (dBody k.data ++ '"' ::
                      (':' :: ' ' :: (pyReprL v ++
                        ',' :: ' ' :: (pyReprMembers (q :: t2) ++ '\x7d' :: rest)))))) acc =
                      some (res2, r6) := by
                    simp [parseMembers, hskip, hps, hskipCol, hskipV, hv, hskipC2, hins, hpm2]
                  rw [hval] at hp
                  have h2 := Option.some.inj hp
                  rw [Prod.mk.injEq] at h2
                  refine ⟨h2.1.symm.trans ?_, h2.2.symm.trans hM2.2⟩
                  rw [hM2.1]
                  simp
        · -- single-quoted key: the JSON parser rejects the object body
          have hq : strQuote k.data = '\'' := by unfold strQuote; rw [if_neg hqc]
          obtain ⟨X, hX⟩ := pyReprMembers_head k v t
          rw [hq] at hX
          have hin : wsl ++ pyReprMembers ((k, v) :: t) ++ '\x7d' :: rest =
              wsl ++ ('\'' :: (X ++ '\x7d' :: rest)) := by
            rw [hX]
            simp
          rw [hin] at hp
          have hskip : skipWs (wsl ++ ('\'' :: (X ++ '\x7d' :: rest))) =
              '\'' :: (X ++ '\x7d' :: rest) := by
            rw [skipWs_ws_append wsl _ hws]
            exact skipWs_head_nonws _ rfl
          have hval : parseMembers (f + 1) (wsl ++ ('\'' :: (X ++ '\x7d' :: rest))) acc =
              Option.none := by
            simp [parseMembers, hskip]
          rw [hval] at hp
          exact absurd hp (by simp)

theorem pyStrip_ends (a b : Char) (mid : List Char)
    (ha : pySChar a = false) (hb : pySChar b = false) :
    pyStrip (a :: (mid ++ [b])) = a :: (mid ++ [b]) := by
  unfold pyStrip
  have h1 : List.dropWhile pySChar (a :: (mid ++ [b])) = a :: (mid ++ [b]) := by
    simp [List.dropWhile_cons, ha]
  rw [h1]
  have h2 : (a :: (mid ++ [b])).reverse = b :: (mid.reverse ++ [a]) := by
    simp
  rw [h2]
  have h3 : List.dropWhile pySChar (b :: (mid.reverse ++ [a])) = b :: (mid.reverse ++ [a]) := by
    simp [List.dropWhile_cons, hb]
  rw [h3, ← h2, List.reverse_reverse]

theorem jsonLoads_repr_sound (v w : PyVal) (hwf : pyWf v = true)
    (h : jsonLoads (pyReprL v) = some w) : w = v := by
  unfold jsonLoads at h
  obtain ⟨c, t, hct, hwsc, _, _⟩ := pyReprL_head v
  rw [skipWs_head_nonws _ (by rw [hct]; exact hwsc)] at h
  cases hpv : parseValC (2 * (pyReprL v).length + 8) (pyReprL v) with
  | none =>
    rw [hpv] at h
    exact absurd h (by simp)
  | some p =>
    obtain ⟨w0, r0⟩ := p
    rw [hpv] at h
    have hm := (parse_repr_master (2 * (pyReprL v).length + 8)).1 v [] w0 r0 hwf trivial
      (by rw [List.append_nil]; exact hpv)
    rw [hm.2] at h
    exact (Option.some.inj h).symm.trans hm.1

/-- C5: for every non-empty mapping or ordered-sequence (list) input, the
content renderer outputs exactly that value re-encoded as JSON with 2-space
indentation inside a json code fence, never falling through to any later
rendering rule. -/
theorem render_container_json (v : PyVal) (hwf : pyWf v = true)
    (hshape : (∃ kvs, v = PyVal.dict kvs ∧ kvs ≠ []) ∨
      (∃ xs, v = PyVal.list xs ∧ xs ≠ [])) :
    renderContent v = "```json\n" ++ jsonDumps v ++ "\n```" := by
  rcases hshape with ⟨kvs, hv, -⟩ | ⟨xs, hv, -⟩
  · subst hv
    have hcs : (pyStrTop (PyVal.dict kvs)).data =
        '\x7b' :: (pyReprMembers kvs ++ ['\x7d']) := rfl
    have hstrip : pyStrip ('\x7b' :: (pyReprMembers kvs ++ ['\x7d'])) =
        '\x7b' :: (pyReprMembers kvs ++ ['\x7d']) := pyStrip_ends _ _ _ rfl rfl
    cases hj : jsonLoads ('\x7b' :: (pyReprMembers kvs ++ ['\x7d'])) with
    | none =>
      simp [renderContent, isNone, hcs, hstrip, hj, fenceJson, jsonDumps]
    | some parsed =>
      have hs : parsed = PyVal.dict kvs :=
        jsonLoads_repr_sound (PyVal.dict kvs) parsed hwf hj
      simp [renderContent, isNone, hcs, hstrip, hj, hs, fenceJson, jsonDumps]
  · subst hv
    have hcs : (pyStrTop (PyVal.list xs)).data =
        '[' :: (pyReprItems xs ++ [']']) := rfl
    have hstrip : pyStrip ('[' :: (pyReprItems xs ++ [']'])) =
        '[' :: (pyReprItems xs ++ [']']) := pyStrip_ends _ _ _ rfl rfl
    cases hj : jsonLoads ('[' :: (pyReprItems xs ++ [']'])) with
    | none =>
      simp [renderContent, isNone, hcs, hstrip, hj, fenceJson, jsonDumps]
    | some parsed =>
      have hs : parsed = PyVal.list xs :=
        jsonLoads_repr_sound (PyVal.list xs) parsed hwf hj
      simp [renderContent, isNone, hcs, hstrip, hj, hs, fenceJson, jsonDumps]

/-- Concrete instance of the C5 theorem: a one-entry dictionary renders as a
json code fence of its 2-space-indented dump. -/
theorem render_container_json_witness :
    pyWf (PyVal.dict [("a", PyVal.int 1)]) = true ∧
    renderContent (PyVal.dict [("a", PyVal.int 1)]) =
      "```json\n" ++ jsonDumps (PyVal.dict [("a", PyVal.int 1)]) ++ "\n```" :=
  ⟨rfl, render_container_json (PyVal.dict [("a", PyVal.int 1)]) rfl
    (Or.inl ⟨[("a", PyVal.int 1)], rfl, by simp⟩)⟩
